import Mathlib

/-!
Verification of the annotation rule-classification engine of
`flake8_modern_annotations/checker.py` (the feature-complete variant of the
checker; `flake8_postponed_annotations/checker.py` is a strict subset of its
postponed rule).

The embedding models the Python AST fragment the checker inspects, the static
rule tables, the `AnnotationVisitor` traversal with its mutable state, and the
`AnnotationChecker.__iter__` aggregation.  Python `dict`s are modelled as
insertion-ordered association lists with the same get/set/delete/append
semantics.  Messages are identified by their numeric code from the `Message`
enum; the rendered text is a fixed format of the code and the keyword
arguments, so diagnostics are modelled as (line, column, code, kwargs).
-/

set_option autoImplicit false

/-- Constant values appearing in `ast.Constant` nodes (Python >= 3.8 parses
string literals as `ast.Constant`; the `ast.Str` fallback branch of the source
is the 3.7 spelling of the same base case). -/
inductive ConstVal where
  | noneV
  | ellipsisV
  | str (s : String)
  | intV (n : Int)
  | boolV (b : Bool)
deriving DecidableEq, Repr

mutual

/-- The expression fragment of the Python AST that the checker's recursive
descent distinguishes: `ast.Constant`, `ast.Name`, `ast.Attribute`,
`ast.Subscript`, the legacy `ast.Index` slice wrapper, `ast.Tuple`, and
`ast.List`; every other expression shape matches none of the checker's
`isinstance` tests and behaves like `ast.List` does here (opaque). -/
inductive Expr where
  | constant (v : ConstVal) (line col : Nat)
  | name (id : String) (line col : Nat)
  | attr (value : Expr) (a : String) (line col : Nat)
  | subscript (value : Expr) (slice : Expr) (line col : Nat)
  | indexNode (value : Expr)
  | tuple (elts : Exprs) (line col : Nat)
  | listDisplay (elts : Exprs) (line col : Nat)
deriving DecidableEq, Repr

inductive Exprs where
  | nil
  | cons (e : Expr) (es : Exprs)
deriving DecidableEq, Repr

end

/-- `AnnotationVisitor._name`. -/
def nameOf : Expr → String
  | .subscript v _ _ _ => nameOf v
  | .name id _ _ => id
  | .attr v a _ _ => nameOf v ++ "." ++ a
  | _ => ""

/-- `node.lineno` / `node.col_offset` as used by `_ast_node_message`. -/
def locOf : Expr → Nat × Nat
  | .constant _ l c => (l, c)
  | .name _ l c => (l, c)
  | .attr _ _ l c => (l, c)
  | .subscript _ _ l c => (l, c)
  | .indexNode v => locOf v
  | .tuple _ l c => (l, c)
  | .listDisplay _ l c => (l, c)

/-- The keyword arguments attached to a violation (`{'value': ...}`,
`{'name': ..., 'replacement': ...}` or `{'name': ...}`). -/
inductive Kwargs where
  | val (v : ConstVal)
  | nameRepl (nm repl : String)
  | nameOnly (nm : String)
deriving DecidableEq, Repr

/-- A violation: the node's location, the numeric message code from the
`Message` enum, and the message's keyword arguments. -/
structure Violation where
  line : Nat
  col : Nat
  msg : Nat
  kw : Kwargs
deriving DecidableEq, Repr

def POSTPONED_ASSIGN_TYPE : Nat := 1
def POSTPONED_ARG_TYPE : Nat := 2
def POSTPONED_RETURN_TYPE : Nat := 3
def UNION_IMPORT : Nat := 400
def UNION_TYPE : Nat := 401

def TYPING_TYPES : List String :=
  ["AbstractSet", "AsyncContextManager", "AsyncGenerator", "AsyncIterable",
   "AsyncIterator", "Awaitable", "ByteString", "Callable", "ChainMap",
   "Collection", "Container", "ContextManager", "Coroutine", "Counter",
   "DefaultDict", "Deque", "Dict", "FrozenSet", "Generator", "ItemsView",
   "Iterable", "Iterator", "KeysView", "List", "Literal", "LiteralString",
   "Mapping", "MappingView", "Match", "MutableMapping", "MutableSequence",
   "MutableSet", "OrderedDict", "Pattern", "Reversible", "Sequence", "Set",
   "Tuple", "Type", "Union", "ValuesView"]

def TYPING_EXTENSION_TYPES : List String :=
  ["Literal", "LiteralString", "TypeAlias"]

def COLLECTIONS_TYPES : List String :=
  ["deque", "defaultdict", "OrderedDict", "Counter", "ChainMap"]

def COLLECTIONS_ABC_TYPES : List String :=
  ["Awaitable", "Coroutine", "AsyncIterable", "AsyncIterator",
   "AsyncGenerator", "Iterable", "Iterator", "Generator", "Reversible",
   "Container", "Collection", "Callable", "Set", "MutableSet", "Mapping",
   "MutableMapping", "Sequence", "MutableSequence", "ByteString",
   "MappingView", "KeysView", "ItemsView", "ValuesView"]

def CONTEXTLIB_TYPES : List String :=
  ["AbstractContextManager", "AbstractAsyncContextManager"]

def RE_TYPES : List String :=
  ["Pattern", "Match"]

def LITERALS : List String :=
  ["typing.Literal", "typing_extensions.Literal"]

/-- `DEPRECATED_TYPES`: canonical name -> (replacement, import message code,
use message code). -/
def DEPRECATED_TYPES : List (String × String × Nat × Nat) :=
  [("typing.Tuple", "tuple", 100, 200),
   ("typing.List", "list", 101, 201),
   ("typing.Dict", "dict", 102, 202),
   ("typing.Set", "set", 103, 203),
   ("typing.FrozenSet", "frozenset", 104, 204),
   ("typing.Type", "type", 105, 205)]

/-- `REPLACED_TYPES`: canonical name -> (replacement, import message code,
use message code). -/
def REPLACED_TYPES : List (String × String × Nat × Nat) :=
  [("typing.Deque", "collections.deque", 110, 210),
   ("typing.DefaultDict", "collections.defaultdict", 111, 211),
   ("typing.OrderedDict", "collections.OrderedDict", 112, 212),
   ("typing.Counter", "collections.Counter", 113, 213),
   ("typing.ChainMap", "collections.ChainMap", 114, 214),
   ("typing.Awaitable", "collections.abc.Awaitable", 120, 220),
   ("typing.Coroutine", "collections.abc.Coroutine", 121, 221),
   ("typing.AsyncIterable", "collections.abc.AsyncIterable", 122, 222),
   ("typing.AsyncIterator", "collections.abc.AsyncIterator", 123, 223),
   ("typing.AsyncGenerator", "collections.abc.AsyncGenerator", 124, 224),
   ("typing.Iterable", "collections.abc.Iterable", 125, 225),
   ("typing.Iterator", "collections.abc.Iterator", 126, 226),
   ("typing.Generator", "collections.abc.Generator", 127, 227),
   ("typing.Reversible", "collections.abc.Reversible", 128, 228),
   ("typing.Container", "collections.abc.Container", 129, 229),
   ("typing.Collection", "collections.abc.Collection", 130, 230),
   ("typing.Callable", "collections.abc.Callable", 131, 231),
   ("typing.AbstractSet", "collections.abc.Set", 132, 232),
   ("typing.MutableSet", "collections.abc.MutableSet", 133, 233),
   ("typing.Mapping", "collections.abc.Mapping", 134, 234),
   ("typing.MutableMapping", "collections.abc.MutableMapping", 135, 235),
   ("typing.Sequence", "collections.abc.Sequence", 136, 236),
   ("typing.MutableSequence", "collections.abc.MutableSequence", 137, 237),
   ("typing.ByteString", "collections.abc.ByteString", 138, 238),
   ("typing.MappingView", "collections.abc.MappingView", 139, 239),
   ("typing.KeysView", "collections.abc.KeysView", 140, 240),
   ("typing.ItemsView", "collections.abc.ItemsView", 141, 241),
   ("typing.ValuesView", "collections.abc.ValuesView", 142, 242),
   ("typing.ContextManager", "contextlib.AbstractContextManager", 150, 250),
   ("typing.AsyncContextManager", "contextlib.AbstractAsyncContextManager", 151, 251),
   ("typing.Pattern", "re.Pattern", 160, 260),
   ("typing.Match", "re.Match", 161, 261)]

/-- `REQUIRED_TYPES`: canonical name -> (replacement, use message code). -/
def REQUIRED_TYPES : List (String × String × Nat) :=
  [("tuple", "typing.Tuple", 300),
   ("list", "typing.List", 301),
   ("dict", "typing.Dict", 302),
   ("set", "typing.Set", 303),
   ("frozenset", "typing.FrozenSet", 304),
   ("type", "typing.Type", 305),
   ("collections.deque", "typing.Deque", 310),
   ("collections.defaultdict", "typing.DefaultDict", 311),
   ("collections.OrderedDict", "typing.OrderedDict", 312),
   ("collections.Counter", "typing.Counter", 313),
   ("collections.ChainMap", "typing.ChainMap", 314),
   ("collections.abc.Awaitable", "typing.Awaitable", 320),
   ("collections.abc.Coroutine", "typing.Coroutine", 321),
   ("collections.abc.AsyncIterable", "typing.AsyncIterable", 322),
   ("collections.abc.AsyncIterator", "typing.AsyncIterator", 323),
   ("collections.abc.AsyncGenerator", "typing.AsyncGenerator", 324),
   ("collections.abc.Iterable", "typing.Iterable", 325),
   ("collections.abc.Iterator", "typing.Iterator", 326),
   ("collections.abc.Generator", "typing.Generator", 327),
   ("collections.abc.Reversible", "typing.Reversible", 328),
   ("collections.abc.Container", "typing.Container", 329),
   ("collections.abc.Collection", "typing.Collection", 330),
   ("collections.abc.Callable", "typing.Callable", 331),
   ("collections.abc.Set", "typing.AbstractSet", 332),
   ("collections.abc.MutableSet", "typing.MutableSet", 333),
   ("collections.abc.Mapping", "typing.Mapping", 334),
   ("collections.abc.MutableMapping", "typing.MutableMapping", 335),
   ("collections.abc.Sequence", "typing.Sequence", 336),
   ("collections.abc.MutableSequence", "typing.MutableSequence", 337),
   ("collections.abc.ByteString", "typing.ByteString", 338),
   ("collections.abc.MappingView", "typing.MappingView", 339),
   ("collections.abc.KeysView", "typing.KeysView", 340),
   ("collections.abc.ItemsView", "typing.ItemsView", 341),
   ("collections.abc.ValuesView", "typing.ValuesView", 342),
   ("contextlib.AbstractContextManager", "typing.ContextManager", 350),
   ("contextlib.AbstractAsyncContextManager", "typing.AsyncContextManager", 351),
   ("re.Pattern", "typing.Pattern", 360),
   ("re.Match", "typing.Match", 361)]

/-- `d.get(key)` on an insertion-ordered dict. -/
def alGet {α : Type} : List (String × α) → String → Option α
  | [], _ => none
  | (k, v) :: rest, key => if k = key then some v else alGet rest key

/-- `d[key] = value` on an insertion-ordered dict: overwrite in place, or
append a new binding. -/
def alSet {α : Type} : List (String × α) → String → α → List (String × α)
  | [], key, v => [(key, v)]
  | (k0, v0) :: rest, key, v =>
    if k0 = key then (key, v) :: rest else (k0, v0) :: alSet rest key v

/-- `del d[key]` (no-op when the key is absent, matching the guarded `del`
in `_remove_import_violations`).  A dict key occurs at most once, so removing
every binding of the key is the dict deletion. -/
def alDel {α : Type} : List (String × α) → String → List (String × α)
  | [], _ => []
  | (k0, v0) :: rest, key =>
    if k0 = key then alDel rest key else (k0, v0) :: alDel rest key

/-- The `if key not in d: d[key] = []` plus `d[key].append(v)` pattern of
`_add_deprecated_import` / `_add_union_import`. -/
def groupAdd (g : List (String × List Violation)) (key : String) (v : Violation) :
    List (String × List Violation) :=
  match g with
  | [] => [(key, [v])]
  | (k0, vs) :: rest =>
    if k0 = key then (k0, vs ++ [v]) :: rest else (k0, vs) :: groupAdd rest key v

/-- `dict.values()` flattened, as iterated by `AnnotationChecker.__iter__`. -/
def groupValues : List (String × List Violation) → List Violation
  | [] => []
  | (_, vs) :: rest => vs ++ groupValues rest

/-- The guard of the Literal exemption in `_check_postponed`: the subscript
head is a Name or Attribute and its resolution is in `LITERALS`. -/
def literalExempt (tm : List (String × String)) (v : Expr) : Bool :=
  match v with
  | .name _ _ _ | .attr _ _ _ _ =>
    match alGet tm (nameOf v) with
    | some t => LITERALS.contains t
    | none => false
  | _ => false

mutual

/-- `AnnotationVisitor._check_postponed` on a present annotation.  The
subscript case first applies the Literal exemption, then normalizes the slice
(`node.slice.value if isinstance(node.slice, ast.Index) else node.slice`) and
descends into a tuple's elements or the single value. -/
def checkPostponed (tm : List (String × String)) (msg : Nat) : Expr → List Violation
  | .constant v l c =>
    if v = .noneV ∨ v = .ellipsisV then [] else [⟨l, c, msg, .val v⟩]
  | .subscript v sl _ _ =>
    if literalExempt tm v then []
    else
      match sl with
      | .indexNode (.tuple elts _ _) => checkPostponedList tm msg elts
      | .indexNode inner => checkPostponed tm msg inner
      | .tuple elts _ _ => checkPostponedList tm msg elts
      | other => checkPostponed tm msg other
  | _ => []

def checkPostponedList (tm : List (String × String)) (msg : Nat) : Exprs → List Violation
  | .nil => []
  | .cons e es => checkPostponed tm msg e ++ checkPostponedList tm msg es

end

/-- The non-recursive head part of `_check_deprecated`: a Name, Attribute or
Subscript whose resolved canonical name is in `DEPRECATED_TYPES` or
`REPLACED_TYPES` yields one use diagnostic (`DEPRECATED_TYPES` consulted
first, as in the source's conditional expression). -/
def deprecatedHead (tm : List (String × String)) (e : Expr) : List Violation :=
  match e with
  | .name _ _ _ | .attr _ _ _ _ | .subscript _ _ _ _ =>
    match alGet tm (nameOf e) with
    | some tn =>
      match alGet DEPRECATED_TYPES tn with
      | some (repl, _, useMsg) =>
        [⟨(locOf e).1, (locOf e).2, useMsg, .nameRepl (nameOf e) repl⟩]
      | none =>
        match alGet REPLACED_TYPES tn with
        | some (repl, _, useMsg) =>
          [⟨(locOf e).1, (locOf e).2, useMsg, .nameRepl (nameOf e) repl⟩]
        | none => []
    | none => []
  | _ => []

mutual

/-- `AnnotationVisitor._check_deprecated`: head check, then slice
normalization and recursive descent for subscripts. -/
def checkDeprecated (tm : List (String × String)) : Expr → List Violation
  | .subscript v sl l c =>
    deprecatedHead tm (.subscript v sl l c) ++
      match sl with
      | .indexNode (.tuple elts _ _) => checkDeprecatedList tm elts
      | .indexNode inner => checkDeprecated tm inner
      | .tuple elts _ _ => checkDeprecatedList tm elts
      | other => checkDeprecated tm other
  | e => deprecatedHead tm e

def checkDeprecatedList (tm : List (String × String)) : Exprs → List Violation
  | .nil => []
  | .cons e es => checkDeprecated tm e ++ checkDeprecatedList tm es

end

/-- The non-recursive head part of `_check_required`. -/
def requiredHead (tm : List (String × String)) (e : Expr) : List Violation :=
  match e with
  | .name _ _ _ | .attr _ _ _ _ | .subscript _ _ _ _ =>
    match alGet tm (nameOf e) with
    | some tn =>
      match alGet REQUIRED_TYPES tn with
      | some (repl, useMsg) =>
        [⟨(locOf e).1, (locOf e).2, useMsg, .nameRepl (nameOf e) repl⟩]
      | none => []
    | none => []
  | _ => []

mutual

/-- `AnnotationVisitor._check_required`. -/
def checkRequired (tm : List (String × String)) : Expr → List Violation
  | .subscript v sl l c =>
    requiredHead tm (.subscript v sl l c) ++
      match sl with
      | .indexNode (.tuple elts _ _) => checkRequiredList tm elts
      | .indexNode inner => checkRequired tm inner
      | .tuple elts _ _ => checkRequiredList tm elts
      | other => checkRequired tm other
  | e => requiredHead tm e

def checkRequiredList (tm : List (String × String)) : Exprs → List Violation
  | .nil => []
  | .cons e es => checkRequired tm e ++ checkRequiredList tm es

end

/-- The non-recursive head part of `_check_union`. -/
def unionHead (tm : List (String × String)) (e : Expr) : List Violation :=
  match e with
  | .name _ _ _ | .attr _ _ _ _ | .subscript _ _ _ _ =>
    if alGet tm (nameOf e) = some "typing.Union" then
      [⟨(locOf e).1, (locOf e).2, UNION_TYPE, .nameOnly (nameOf e)⟩]
    else []
  | _ => []

mutual

/-- `AnnotationVisitor._check_union`. -/
def checkUnion (tm : List (String × String)) : Expr → List Violation
  | .subscript v sl l c =>
    unionHead tm (.subscript v sl l c) ++
      match sl with
      | .indexNode (.tuple elts _ _) => checkUnionList tm elts
      | .indexNode inner => checkUnion tm inner
      | .tuple elts _ _ => checkUnionList tm elts
      | other => checkUnion tm other
  | e => unionHead tm e

def checkUnionList (tm : List (String × String)) : Exprs → List Violation
  | .nil => []
  | .cons e es => checkUnion tm e ++ checkUnionList tm es

end

/-- The mutable state of `AnnotationVisitor`: the alias map and the six
diagnostic buckets. -/
structure VState where
  type_map : List (String × String)
  postponed : List Violation
  deprecated_imports : List (String × List Violation)
  deprecated : List Violation
  required : List Violation
  union_imports : List (String × List Violation)
  union : List Violation
deriving DecidableEq, Repr

/-- `AnnotationVisitor.__init__`: the alias map is seeded with the built-in
generic names mapped to themselves. -/
def initState : VState :=
  { type_map := [("tuple", "tuple"), ("list", "list"), ("dict", "dict"),
                 ("set", "set"), ("frozenset", "frozenset"), ("type", "type")],
    postponed := [], deprecated_imports := [], deprecated := [],
    required := [], union_imports := [], union := [] }

mutual

/-- `AnnotationVisitor._remove_import_violations`: a Name, Attribute or
Subscript deletes its spelling from both import-violation groups, and a
Subscript additionally descends through the normalized slice. -/
def removeImportViolations (st : VState) : Expr → VState
  | .name id l c =>
    let st := { st with deprecated_imports := alDel st.deprecated_imports (nameOf (.name id l c)) }
    { st with union_imports := alDel st.union_imports (nameOf (.name id l c)) }
  | .attr v a l c =>
    let st := { st with deprecated_imports := alDel st.deprecated_imports (nameOf (.attr v a l c)) }
    { st with union_imports := alDel st.union_imports (nameOf (.attr v a l c)) }
  | .subscript v sl l c =>
    let st := { st with deprecated_imports := alDel st.deprecated_imports (nameOf (.subscript v sl l c)) }
    let st := { st with union_imports := alDel st.union_imports (nameOf (.subscript v sl l c)) }
    match sl with
    | .indexNode (.tuple elts _ _) => removeImportViolationsList st elts
    | .indexNode inner => removeImportViolations st inner
    | .tuple elts _ _ => removeImportViolationsList st elts
    | other => removeImportViolations st other
  | _ => st

def removeImportViolationsList (st : VState) : Exprs → VState
  | .nil => st
  | .cons e es => removeImportViolationsList (removeImportViolations st e) es

end

/-- An `ast.alias` entry of an import statement: name and optional rename. -/
structure ImpAlias where
  name : String
  asname : Option String
deriving DecidableEq, Repr

/-- One alias of `visit_Import`: whole-module import registers each member of
the module's recognized set under `<local name>.<member>`.  The `re` branch
mirrors the source exactly: it iterates `CONTEXTLIB_TYPES`, not `RE_TYPES`
(checker.py line 551). -/
def wholeImportMap (tm : List (String × String)) (moduleName localName : String) :
    List (String × String) :=
  if moduleName = "typing" then
    TYPING_TYPES.foldl (fun m t => alSet m (localName ++ "." ++ t) ("typing." ++ t)) tm
  else if moduleName = "typing_extensions" then
    TYPING_EXTENSION_TYPES.foldl (fun m t => alSet m (localName ++ "." ++ t) ("typing_extensions." ++ t)) tm
  else if moduleName = "collections" then
    COLLECTIONS_TYPES.foldl (fun m t => alSet m (localName ++ "." ++ t) ("collections." ++ t)) tm
  else if moduleName = "collections.abc" then
    COLLECTIONS_ABC_TYPES.foldl (fun m t => alSet m (localName ++ "." ++ t) ("collections.abc." ++ t)) tm
  else if moduleName = "contextlib" then
    CONTEXTLIB_TYPES.foldl (fun m t => alSet m (localName ++ "." ++ t) ("contextlib." ++ t)) tm
  else if moduleName = "re" then
    CONTEXTLIB_TYPES.foldl (fun m t => alSet m (localName ++ "." ++ t) ("re." ++ t)) tm
  else tm

/-- `_add_deprecated_import`'s table consultation: `REPLACED_TYPES` is
preferred, as in the source's conditional expression; `none` when the name is
in neither table (in which case `visit_ImportFrom` does not call it). -/
def deprecatedImportEntry (l c : Nat) (tn : String) : Option Violation :=
  match alGet REPLACED_TYPES tn with
  | some (repl, impMsg, _) => some ⟨l, c, impMsg, .nameRepl tn repl⟩
  | none =>
    match alGet DEPRECATED_TYPES tn with
    | some (repl, impMsg, _) => some ⟨l, c, impMsg, .nameRepl tn repl⟩
    | none => none

/-- The `typing` branch of `visit_ImportFrom`: register every member in the
alias map, and record an import violation when the member is deprecated,
replaced, or `Union`. -/
def fromTyping (l c : Nat) (st : VState) : List ImpAlias → VState
  | [] => st
  | a :: rest =>
    let tn := "typing." ++ a.name
    let an := a.asname.getD a.name
    let st := { st with type_map := alSet st.type_map an tn }
    let st :=
      match deprecatedImportEntry l c tn with
      | some entry =>
        { st with deprecated_imports := groupAdd st.deprecated_imports an entry }
      | none =>
        if tn = "typing.Union" then
          { st with union_imports := groupAdd st.union_imports an ⟨l, c, UNION_IMPORT, .nameOnly tn⟩ }
        else st
    fromTyping l c st rest

/-- The non-`typing` branches of `visit_ImportFrom`: register only the
members of the module's recognized set. -/
def fromModule (modName : String) (members : List String)
    (tm : List (String × String)) : List ImpAlias → List (String × String)
  | [] => tm
  | a :: rest =>
    let tm :=
      if members.contains a.name then
        alSet tm (a.asname.getD a.name) (modName ++ "." ++ a.name)
      else tm
    fromModule modName members tm rest

/-- A function parameter (`ast.arg`): its optional annotation. -/
structure FuncArg where
  ann : Option Expr
deriving DecidableEq, Repr

mutual

/-- The statement fragment of the Python AST relevant to the visitor:
`ast.Import`, `ast.ImportFrom`, `ast.Assign`, `ast.AnnAssign`,
`ast.FunctionDef`, `ast.AsyncFunctionDef` and an opaque statement (`pass`,
or any statement with no visitor method and no relevant children). -/
inductive Stmt where
  | wholeImport (names : List ImpAlias)
  | fromImport (module : Option String) (names : List ImpAlias) (line col : Nat)
  | assign (value : Expr) (line col : Nat)
  | annAssign (ann : Expr) (line col : Nat)
  | functionDef (args : List FuncArg) (returns : Option Expr) (body : Stmts)
  | asyncFunctionDef (args : List FuncArg) (returns : Option Expr) (body : Stmts)
  | passStmt
deriving DecidableEq, Repr

inductive Stmts where
  | nil
  | cons (s : Stmt) (ss : Stmts)
deriving DecidableEq, Repr

end

/-- `_check_postponed` called on an optional annotation slot (absent
annotations match no `isinstance` test and yield nothing). -/
def checkPostponedOpt (tm : List (String × String)) (msg : Nat) : Option Expr → List Violation
  | some e => checkPostponed tm msg e
  | none => []

def checkDeprecatedOpt (tm : List (String × String)) : Option Expr → List Violation
  | some e => checkDeprecated tm e
  | none => []

def checkUnionOpt (tm : List (String × String)) : Option Expr → List Violation
  | some e => checkUnion tm e
  | none => []

/-- `AnnotationVisitor.visit_arg`. -/
def visitArg (st : VState) (a : FuncArg) : VState :=
  let st := { st with postponed := st.postponed ++ checkPostponedOpt st.type_map POSTPONED_ARG_TYPE a.ann }
  let st := { st with deprecated := st.deprecated ++ checkDeprecatedOpt st.type_map a.ann }
  { st with union := st.union ++ checkUnionOpt st.type_map a.ann }

mutual

/-- One step of the `AnnotationVisitor` traversal.  `ast.NodeVisitor`
dispatches by node class name: `Import`, `ImportFrom`, `Assign`, `AnnAssign`,
`arg` and `FunctionDef` have visitor methods; `AsyncFunctionDef` has none, so
it only receives `generic_visit` (its parameters are reached through the
generic traversal, its return annotation is not checked). -/
def visitStmt (aliasMode : Bool) (st : VState) : Stmt → VState
  | .wholeImport names =>
    { st with type_map :=
        names.foldl (fun tm a => wholeImportMap tm a.name (a.asname.getD a.name)) st.type_map }
  | .fromImport mod names l c =>
    if mod = some "typing" then fromTyping l c st names
    else if mod = some "typing_extensions" then
      { st with type_map := fromModule "typing_extensions" TYPING_EXTENSION_TYPES st.type_map names }
    else if mod = some "collections" then
      { st with type_map := fromModule "collections" COLLECTIONS_TYPES st.type_map names }
    else if mod = some "collections.abc" then
      { st with type_map := fromModule "collections.abc" COLLECTIONS_ABC_TYPES st.type_map names }
    else if mod = some "contextlib" then
      { st with type_map := fromModule "contextlib" CONTEXTLIB_TYPES st.type_map names }
    else if mod = some "re" then
      { st with type_map := fromModule "re" RE_TYPES st.type_map names }
    else st
  | .assign v _ _ =>
    if aliasMode then
      let st := removeImportViolations st v
      { st with required := st.required ++ checkRequired st.type_map v }
    else
      let st := { st with deprecated := st.deprecated ++ checkDeprecated st.type_map v }
      { st with union := st.union ++ checkUnion st.type_map v }
  | .annAssign ann _ _ =>
    let st := { st with postponed := st.postponed ++ checkPostponed st.type_map POSTPONED_ASSIGN_TYPE ann }
    let st := { st with deprecated := st.deprecated ++ checkDeprecated st.type_map ann }
    { st with union := st.union ++ checkUnion st.type_map ann }
  | .functionDef args ret body =>
    let st := args.foldl visitArg st
    let st := visitStmts aliasMode st body
    let st := { st with postponed := st.postponed ++ checkPostponedOpt st.type_map POSTPONED_RETURN_TYPE ret }
    let st := { st with deprecated := st.deprecated ++ checkDeprecatedOpt st.type_map ret }
    { st with union := st.union ++ checkUnionOpt st.type_map ret }
  | .asyncFunctionDef args _ body =>
    let st := args.foldl visitArg st
    visitStmts aliasMode st body
  | .passStmt => st

def visitStmts (aliasMode : Bool) (st : VState) : Stmts → VState
  | .nil => st
  | .cons s ss => visitStmts aliasMode (visitStmt aliasMode st s) ss

end

/-- `AnnotationChecker.__iter__` after mode resolution: run the visitor over
the tree, then emit the buckets gated by the resolved category flags, in the
source's order. -/
def checkerOutput (postponedOn deprecatedOn aliasMode unionOn : Bool)
    (tree : Stmts) : List Violation :=
  let r := visitStmts aliasMode initState tree
  (if postponedOn then r.postponed else []) ++
  (if deprecatedOn then groupValues r.deprecated_imports ++ r.deprecated ++ r.required else []) ++
  (if unionOn then groupValues r.union_imports ++ r.union else [])

/-- `True` exactly for the legacy `ast.Index` wrapper node. -/
def isIndexNode : Expr → Bool
  | .indexNode _ => true
  | _ => false

mutual

/-- The spellings `_remove_import_violations` deletes from the two groups of
pending import violations, in its descent order: the node's own qualified name
when it is a Name, Attribute or Subscript, followed by the names collected
from the normalized slice of a Subscript. -/
def aliasNames : Expr → List String
  | .name id l c => [nameOf (.name id l c)]
  | .attr v a l c => [nameOf (.attr v a l c)]
  | .subscript v sl l c =>
    nameOf (.subscript v sl l c) ::
      (match sl with
       | .indexNode (.tuple elts _ _) => aliasNamesList elts
       | .indexNode inner => aliasNames inner
       | .tuple elts _ _ => aliasNamesList elts
       | other => aliasNames other)
  | _ => []

def aliasNamesList : Exprs → List String
  | .nil => []
  | .cons e es => aliasNames e ++ aliasNamesList es

end

mutual

/-- `True` when no `from typing import ...` statement occurs in the
statement, recursively including function bodies. -/
def stmtNoTypingFrom : Stmt → Bool
  | .fromImport mod _ _ _ => if mod = some "typing" then false else true
  | .functionDef _ _ body => stmtsNoTypingFrom body
  | .asyncFunctionDef _ _ body => stmtsNoTypingFrom body
  | _ => true

def stmtsNoTypingFrom : Stmts → Bool
  | .nil => true
  | .cons s ss => stmtNoTypingFrom s && stmtsNoTypingFrom ss

end

theorem alGet_eq_none_iff {α : Type} (g : List (String × α)) (k : String) :
    alGet g k = none ↔ ∀ p ∈ g, p.1 ≠ k := by
  induction g with
  | nil => simp [alGet]
  | cons p rest ih =>
    obtain ⟨k0, v0⟩ := p
    by_cases h : k0 = k <;> simp [alGet, h, ih]

theorem alGet_mem {α : Type} {g : List (String × α)} {k : String} {v : α}
    (h : alGet g k = some v) : (k, v) ∈ g := by
  induction g with
  | nil => simp [alGet] at h
  | cons p rest ih =>
    obtain ⟨k0, v0⟩ := p
    by_cases hk : k0 = k
    · subst hk
      simp [alGet] at h
      simp [h]
    · simp [alGet, hk] at h
      simp [ih h]

theorem mem_alDel {α : Type} {g : List (String × α)} {k : String} {p : String × α}
    (h : p ∈ alDel g k) : p ∈ g := by
  induction g with
  | nil => simpa [alDel] using h
  | cons q rest ih =>
    obtain ⟨k0, v0⟩ := q
    by_cases hk : k0 = k
    · simp [alDel, hk] at h
      simp [ih h]
    · simp [alDel, hk] at h
      rcases h with h | h
      · simp [h]
      · simp [ih h]

theorem alGet_alDel_self {α : Type} (g : List (String × α)) (key : String) :
    alGet (alDel g key) key = none := by
  induction g with
  | nil => simp [alDel, alGet]
  | cons q rest ih =>
    obtain ⟨k0, v0⟩ := q
    by_cases hk : k0 = key
    · simp [alDel, hk, ih]
    · simp [alDel, hk, alGet, ih]

theorem alGet_none_of_subset {α : Type} {g h : List (String × α)} {k : String}
    (hsub : ∀ p ∈ g, p ∈ h) (hnone : alGet h k = none) : alGet g k = none := by
  rw [alGet_eq_none_iff] at hnone ⊢
  exact fun p hp => hnone p (hsub p hp)

theorem alGet_alDel_none {α : Type} (g : List (String × α)) (k k' : String)
    (h : alGet g k' = none) : alGet (alDel g k) k' = none :=
  alGet_none_of_subset (fun _ hp => mem_alDel hp) h

theorem mem_groupAdd {g : List (String × List Violation)} {key : String}
    {v : Violation} {p : String × List Violation} (hp : p ∈ groupAdd g key v) :
    (∀ w ∈ p.2, (∃ q ∈ g, w ∈ q.2) ∨ w = v) := by
  induction g with
  | nil =>
    simp [groupAdd] at hp
    subst hp
    simp
  | cons q rest ih =>
    obtain ⟨k0, vs⟩ := q
    by_cases hk : k0 = key
    · simp [groupAdd, hk] at hp
      rcases hp with hp | hp
      · subst hp
        intro w hw
        simp at hw
        rcases hw with hw | hw
        · exact Or.inl ⟨(k0, vs), by simp, hw⟩
        · exact Or.inr hw
      · intro w hw
        exact Or.inl ⟨p, by simp [hp], hw⟩
    · simp [groupAdd, hk] at hp
      rcases hp with hp | hp
      · subst hp
        intro w hw
        exact Or.inl ⟨(k0, vs), by simp, hw⟩
      · intro w hw
        rcases ih hp w hw with ⟨q, hq, hwq⟩ | hww
        · exact Or.inl ⟨q, by simp [hq], hwq⟩
        · exact Or.inr hww

theorem alGet_groupAdd_ne (g : List (String × List Violation)) (key k : String)
    (v : Violation) (hne : k ≠ key) (h : alGet g k = none) :
    alGet (groupAdd g key v) k = none := by
  induction g with
  | nil =>
    simp [groupAdd, alGet]
    exact fun hh => hne hh.symm
  | cons q rest ih =>
    obtain ⟨k0, vs⟩ := q
    by_cases hk : k0 = k
    · subst hk
      simp [alGet] at h
    · simp [alGet, hk] at h
      by_cases hk0 : k0 = key
      · subst hk0
        simp [groupAdd, alGet, hk, h]
      · simp [groupAdd, hk0, alGet, hk, ih h]

theorem eq_nil_of_alGet_none {α : Type} (g : List (String × α))
    (h : ∀ k, alGet g k = none) : g = [] := by
  cases g with
  | nil => rfl
  | cons p rest =>
    obtain ⟨k0, v0⟩ := p
    have := h k0
    simp [alGet] at this

mutual

theorem remove_fields (st : VState) (e : Expr) :
    (removeImportViolations st e).type_map = st.type_map ∧
    (removeImportViolations st e).postponed = st.postponed ∧
    (removeImportViolations st e).deprecated = st.deprecated ∧
    (removeImportViolations st e).required = st.required ∧
    (removeImportViolations st e).union = st.union := by
  cases e with
  | constant v l c => simp [removeImportViolations]
  | name id l c => simp [removeImportViolations]
  | attr v a l c => simp [removeImportViolations]
  | indexNode v => simp [removeImportViolations]
  | tuple elts l c => simp [removeImportViolations]
  | listDisplay elts l c => simp [removeImportViolations]
  | subscript v sl l c =>
    cases sl with
    | constant cv l2 c2 => simpa [removeImportViolations] using remove_fields _ (.constant cv l2 c2)
    | name id l2 c2 => simpa [removeImportViolations] using remove_fields _ (.name id l2 c2)
    | attr b a l2 c2 => simpa [removeImportViolations] using remove_fields _ (.attr b a l2 c2)
    | subscript b s2 l2 c2 => simpa [removeImportViolations] using remove_fields _ (.subscript b s2 l2 c2)
    | tuple elts l2 c2 => simpa [removeImportViolations] using remove_fields_list _ elts
    | listDisplay elts l2 c2 => simpa [removeImportViolations] using remove_fields _ (.listDisplay elts l2 c2)
    | indexNode inner =>
      cases inner with
      | constant cv l2 c2 => simpa [removeImportViolations] using remove_fields _ (.constant cv l2 c2)
      | name id l2 c2 => simpa [removeImportViolations] using remove_fields _ (.name id l2 c2)
      | attr b a l2 c2 => simpa [removeImportViolations] using remove_fields _ (.attr b a l2 c2)
      | subscript b s2 l2 c2 => simpa [removeImportViolations] using remove_fields _ (.subscript b s2 l2 c2)
      | tuple elts l2 c2 => simpa [removeImportViolations] using remove_fields_list _ elts
      | listDisplay elts l2 c2 => simpa [removeImportViolations] using remove_fields _ (.listDisplay elts l2 c2)
      | indexNode v2 => simpa [removeImportViolations] using remove_fields _ (.indexNode v2)

theorem remove_fields_list (st : VState) (es : Exprs) :
    (removeImportViolationsList st es).type_map = st.type_map ∧
    (removeImportViolationsList st es).postponed = st.postponed ∧
    (removeImportViolationsList st es).deprecated = st.deprecated ∧
    (removeImportViolationsList st es).required = st.required ∧
    (removeImportViolationsList st es).union = st.union := by
  cases es with
  | nil => simp [removeImportViolationsList]
  | cons e es =>
    have h1 := remove_fields st e
    have h2 := remove_fields_list (removeImportViolations st e) es
    simp only [removeImportViolationsList]
    exact ⟨h2.1.trans h1.1, h2.2.1.trans h1.2.1, h2.2.2.1.trans h1.2.2.1,
           h2.2.2.2.1.trans h1.2.2.2.1, h2.2.2.2.2.trans h1.2.2.2.2⟩

end

/-- Every violation stored in an import-violation group satisfies `P`. -/
def GroupAll (P : Violation → Prop) (g : List (String × List Violation)) : Prop :=
  ∀ kv ∈ g, ∀ w ∈ kv.2, P w

theorem GroupAll_alDel {P : Violation → Prop} {g : List (String × List Violation)}
    (k : String) (h : GroupAll P g) : GroupAll P (alDel g k) :=
  fun kv hkv => h kv (mem_alDel hkv)

theorem GroupAll_groupAdd {P : Violation → Prop} {g : List (String × List Violation)}
    {key : String} {v : Violation} (h : GroupAll P g) (hv : P v) :
    GroupAll P (groupAdd g key v) := by
  intro kv hkv w hw
  rcases mem_groupAdd hkv w hw with ⟨q, hq, hwq⟩ | hww
  · exact h q hq w hwq
  · exact hww ▸ hv

mutual

theorem remove_GroupAll (P Q : Violation → Prop) (st : VState) (e : Expr)
    (hd : GroupAll P st.deprecated_imports) (hu : GroupAll Q st.union_imports) :
    GroupAll P (removeImportViolations st e).deprecated_imports ∧
    GroupAll Q (removeImportViolations st e).union_imports := by
  cases e with
  | constant v l c => simpa [removeImportViolations] using ⟨hd, hu⟩
  | name id l c =>
    simp only [removeImportViolations]
    exact ⟨GroupAll_alDel _ hd, GroupAll_alDel _ hu⟩
  | attr v a l c =>
    simp only [removeImportViolations]
    exact ⟨GroupAll_alDel _ hd, GroupAll_alDel _ hu⟩
  | indexNode v => simpa [removeImportViolations] using ⟨hd, hu⟩
  | tuple elts l c => simpa [removeImportViolations] using ⟨hd, hu⟩
  | listDisplay elts l c => simpa [removeImportViolations] using ⟨hd, hu⟩
  | subscript v sl l c =>
    cases sl with
    | constant cv l2 c2 =>
      refine remove_GroupAll P Q ?_ (.constant cv l2 c2) ?_ ?_ <;>
        first | exact GroupAll_alDel _ hd | exact GroupAll_alDel _ hu
    | name id l2 c2 =>
      refine remove_GroupAll P Q ?_ (.name id l2 c2) ?_ ?_ <;>
        first | exact GroupAll_alDel _ hd | exact GroupAll_alDel _ hu
    | attr b a l2 c2 =>
      refine remove_GroupAll P Q ?_ (.attr b a l2 c2) ?_ ?_ <;>
        first | exact GroupAll_alDel _ hd | exact GroupAll_alDel _ hu
    | subscript b s2 l2 c2 =>
      refine remove_GroupAll P Q ?_ (.subscript b s2 l2 c2) ?_ ?_ <;>
        first | exact GroupAll_alDel _ hd | exact GroupAll_alDel _ hu
    | tuple elts l2 c2 =>
      refine remove_GroupAll_list P Q ?_ elts ?_ ?_ <;>
        first | exact GroupAll_alDel _ hd | exact GroupAll_alDel _ hu
    | listDisplay elts l2 c2 =>
      refine remove_GroupAll P Q ?_ (.listDisplay elts l2 c2) ?_ ?_ <;>
        first | exact GroupAll_alDel _ hd | exact GroupAll_alDel _ hu
    | indexNode inner =>
      cases inner with
      | constant cv l2 c2 =>
        refine remove_GroupAll P Q ?_ (.constant cv l2 c2) ?_ ?_ <;>
          first | exact GroupAll_alDel _ hd | exact GroupAll_alDel _ hu
      | name id l2 c2 =>
        refine remove_GroupAll P Q ?_ (.name id l2 c2) ?_ ?_ <;>
          first | exact GroupAll_alDel _ hd | exact GroupAll_alDel _ hu
      | attr b a l2 c2 =>
        refine remove_GroupAll P Q ?_ (.attr b a l2 c2) ?_ ?_ <;>
          first | exact GroupAll_alDel _ hd | exact GroupAll_alDel _ hu
      | subscript b s2 l2 c2 =>
        refine remove_GroupAll P Q ?_ (.subscript b s2 l2 c2) ?_ ?_ <;>
          first | exact GroupAll_alDel _ hd | exact GroupAll_alDel _ hu
      | tuple elts l2 c2 =>
        refine remove_GroupAll_list P Q ?_ elts ?_ ?_ <;>
          first | exact GroupAll_alDel _ hd | exact GroupAll_alDel _ hu
      | listDisplay elts l2 c2 =>
        refine remove_GroupAll P Q ?_ (.listDisplay elts l2 c2) ?_ ?_ <;>
          first | exact GroupAll_alDel _ hd | exact GroupAll_alDel _ hu
      | indexNode v2 =>
        refine remove_GroupAll P Q ?_ (.indexNode v2) ?_ ?_ <;>
          first | exact GroupAll_alDel _ hd | exact GroupAll_alDel _ hu

theorem remove_GroupAll_list (P Q : Violation → Prop) (st : VState) (es : Exprs)
    (hd : GroupAll P st.deprecated_imports) (hu : GroupAll Q st.union_imports) :
    GroupAll P (removeImportViolationsList st es).deprecated_imports ∧
    GroupAll Q (removeImportViolationsList st es).union_imports := by
  cases es with
  | nil => simpa [removeImportViolationsList] using ⟨hd, hu⟩
  | cons e es =>
    have h1 := remove_GroupAll P Q st e hd hu
    have h2 := remove_GroupAll_list P Q (removeImportViolations st e) es h1.1 h1.2
    simpa [removeImportViolationsList] using h2

end

mutual

theorem remove_absent (st : VState) (e : Expr) (k : String)
    (hd : alGet st.deprecated_imports k = none) (hu : alGet st.union_imports k = none) :
    alGet (removeImportViolations st e).deprecated_imports k = none ∧
    alGet (removeImportViolations st e).union_imports k = none := by
  cases e with
  | constant v l c => simpa [removeImportViolations] using ⟨hd, hu⟩
  | name id l c =>
    simp only [removeImportViolations]
    exact ⟨alGet_alDel_none _ _ _ hd, alGet_alDel_none _ _ _ hu⟩
  | attr v a l c =>
    simp only [removeImportViolations]
    exact ⟨alGet_alDel_none _ _ _ hd, alGet_alDel_none _ _ _ hu⟩
  | indexNode v => simpa [removeImportViolations] using ⟨hd, hu⟩
  | tuple elts l c => simpa [removeImportViolations] using ⟨hd, hu⟩
  | listDisplay elts l c => simpa [removeImportViolations] using ⟨hd, hu⟩
  | subscript v sl l c =>
    cases sl with
    | constant cv l2 c2 =>
      refine remove_absent ?_ (.constant cv l2 c2) k ?_ ?_ <;>
        first | exact alGet_alDel_none _ _ _ hd | exact alGet_alDel_none _ _ _ hu
    | name id l2 c2 =>
      refine remove_absent ?_ (.name id l2 c2) k ?_ ?_ <;>
        first | exact alGet_alDel_none _ _ _ hd | exact alGet_alDel_none _ _ _ hu
    | attr b a l2 c2 =>
      refine remove_absent ?_ (.attr b a l2 c2) k ?_ ?_ <;>
        first | exact alGet_alDel_none _ _ _ hd | exact alGet_alDel_none _ _ _ hu
    | subscript b s2 l2 c2 =>
      refine remove_absent ?_ (.subscript b s2 l2 c2) k ?_ ?_ <;>
        first | exact alGet_alDel_none _ _ _ hd | exact alGet_alDel_none _ _ _ hu
    | listDisplay elts l2 c2 =>
      refine remove_absent ?_ (.listDisplay elts l2 c2) k ?_ ?_ <;>
        first | exact alGet_alDel_none _ _ _ hd | exact alGet_alDel_none _ _ _ hu
    | tuple elts l2 c2 =>
      refine remove_absent_list ?_ elts k ?_ ?_ <;>
        first | exact alGet_alDel_none _ _ _ hd | exact alGet_alDel_none _ _ _ hu
    | indexNode inner =>
      cases inner with
      | constant cv l2 c2 =>
        refine remove_absent ?_ (.constant cv l2 c2) k ?_ ?_ <;>
          first | exact alGet_alDel_none _ _ _ hd | exact alGet_alDel_none _ _ _ hu
      | name id l2 c2 =>
        refine remove_absent ?_ (.name id l2 c2) k ?_ ?_ <;>
          first | exact alGet_alDel_none _ _ _ hd | exact alGet_alDel_none _ _ _ hu
      | attr b a l2 c2 =>
        refine remove_absent ?_ (.attr b a l2 c2) k ?_ ?_ <;>
          first | exact alGet_alDel_none _ _ _ hd | exact alGet_alDel_none _ _ _ hu
      | subscript b s2 l2 c2 =>
        refine remove_absent ?_ (.subscript b s2 l2 c2) k ?_ ?_ <;>
          first | exact alGet_alDel_none _ _ _ hd | exact alGet_alDel_none _ _ _ hu
      | listDisplay elts l2 c2 =>
        refine remove_absent ?_ (.listDisplay elts l2 c2) k ?_ ?_ <;>
          first | exact alGet_alDel_none _ _ _ hd | exact alGet_alDel_none _ _ _ hu
      | tuple elts l2 c2 =>
        refine remove_absent_list ?_ elts k ?_ ?_ <;>
          first | exact alGet_alDel_none _ _ _ hd | exact alGet_alDel_none _ _ _ hu
      | indexNode v2 =>
        refine remove_absent ?_ (.indexNode v2) k ?_ ?_ <;>
          first | exact alGet_alDel_none _ _ _ hd | exact alGet_alDel_none _ _ _ hu

theorem remove_absent_list (st : VState) (es : Exprs) (k : String)
    (hd : alGet st.deprecated_imports k = none) (hu : alGet st.union_imports k = none) :
    alGet (removeImportViolationsList st es).deprecated_imports k = none ∧
    alGet (removeImportViolationsList st es).union_imports k = none := by
  cases es with
  | nil => simpa [removeImportViolationsList] using ⟨hd, hu⟩
  | cons e es =>
    have h1 := remove_absent st e k hd hu
    have h2 := remove_absent_list (removeImportViolations st e) es k h1.1 h1.2
    simpa [removeImportViolationsList] using h2

end

mutual

theorem remove_aliasNames (st : VState) (e : Expr) (k : String)
    (hk : k ∈ aliasNames e) :
    alGet (removeImportViolations st e).deprecated_imports k = none ∧
    alGet (removeImportViolations st e).union_imports k = none := by
  cases e with
  | constant v l c => simp [aliasNames] at hk
  | indexNode v => simp [aliasNames] at hk
  | tuple elts l c => simp [aliasNames] at hk
  | listDisplay elts l c => simp [aliasNames] at hk
  | name id l c =>
    simp only [aliasNames, List.mem_singleton] at hk
    subst hk
    simp only [removeImportViolations]
    exact ⟨alGet_alDel_self _ _, alGet_alDel_self _ _⟩
  | attr v a l c =>
    simp only [aliasNames, List.mem_singleton] at hk
    subst hk
    simp only [removeImportViolations]
    exact ⟨alGet_alDel_self _ _, alGet_alDel_self _ _⟩
  | subscript v sl l c =>
    cases sl with
    | constant cv l2 c2 =>
      have hk2 : k ∈ nameOf (Expr.subscript v (.constant cv l2 c2) l c) :: aliasNames (.constant cv l2 c2) := hk
      rcases List.mem_cons.mp hk2 with hk3 | hk3
      · subst hk3
        refine remove_absent ?_ (.constant cv l2 c2) _ ?_ ?_ <;>
          exact alGet_alDel_self _ _
      · exact remove_aliasNames _ (.constant cv l2 c2) k hk3
    | name id l2 c2 =>
      have hk2 : k ∈ nameOf (Expr.subscript v (.name id l2 c2) l c) :: aliasNames (.name id l2 c2) := hk
      rcases List.mem_cons.mp hk2 with hk3 | hk3
      · subst hk3
        refine remove_absent ?_ (.name id l2 c2) _ ?_ ?_ <;>
          exact alGet_alDel_self _ _
      · exact remove_aliasNames _ (.name id l2 c2) k hk3
    | attr b a l2 c2 =>
      have hk2 : k ∈ nameOf (Expr.subscript v (.attr b a l2 c2) l c) :: aliasNames (.attr b a l2 c2) := hk
      rcases List.mem_cons.mp hk2 with hk3 | hk3
      · subst hk3
        refine remove_absent ?_ (.attr b a l2 c2) _ ?_ ?_ <;>
          exact alGet_alDel_self _ _
      · exact remove_aliasNames _ (.attr b a l2 c2) k hk3
    | subscript b s2 l2 c2 =>
      have hk2 : k ∈ nameOf (Expr.subscript v (.subscript b s2 l2 c2) l c) :: aliasNames (.subscript b s2 l2 c2) := hk
      rcases List.mem_cons.mp hk2 with hk3 | hk3
      · subst hk3
        refine remove_absent ?_ (.subscript b s2 l2 c2) _ ?_ ?_ <;>
          exact alGet_alDel_self _ _
      · exact remove_aliasNames _ (.subscript b s2 l2 c2) k hk3
    | listDisplay elts l2 c2 =>
      have hk2 : k ∈ nameOf (Expr.subscript v (.listDisplay elts l2 c2) l c) :: aliasNames (.listDisplay elts l2 c2) := hk
      rcases List.mem_cons.mp hk2 with hk3 | hk3
      · subst hk3
        refine remove_absent ?_ (.listDisplay elts l2 c2) _ ?_ ?_ <;>
          exact alGet_alDel_self _ _
      · exact remove_aliasNames _ (.listDisplay elts l2 c2) k hk3
    | tuple elts l2 c2 =>
      have hk2 : k ∈ nameOf (Expr.subscript v (.tuple elts l2 c2) l c) :: aliasNamesList elts := hk
      rcases List.mem_cons.mp hk2 with hk3 | hk3
      · subst hk3
        refine remove_absent_list ?_ elts _ ?_ ?_ <;>
          exact alGet_alDel_self _ _
      · exact remove_aliasNames_list _ elts k hk3
    | indexNode inner =>
      cases inner with
      | constant cv l2 c2 =>
        have hk2 : k ∈ nameOf (Expr.subscript v (.indexNode (.constant cv l2 c2)) l c) :: aliasNames (.constant cv l2 c2) := hk
        rcases List.mem_cons.mp hk2 with hk3 | hk3
        · subst hk3
          refine remove_absent ?_ (.constant cv l2 c2) _ ?_ ?_ <;>
            exact alGet_alDel_self _ _
        · exact remove_aliasNames _ (.constant cv l2 c2) k hk3
      | name id l2 c2 =>
        have hk2 : k ∈ nameOf (Expr.subscript v (.indexNode (.name id l2 c2)) l c) :: aliasNames (.name id l2 c2) := hk
        rcases List.mem_cons.mp hk2 with hk3 | hk3
        · subst hk3
          refine remove_absent ?_ (.name id l2 c2) _ ?_ ?_ <;>
            exact alGet_alDel_self _ _
        · exact remove_aliasNames _ (.name id l2 c2) k hk3
      | attr b a l2 c2 =>
        have hk2 : k ∈ nameOf (Expr.subscript v (.indexNode (.attr b a l2 c2)) l c) :: aliasNames (.attr b a l2 c2) := hk
        rcases List.mem_cons.mp hk2 with hk3 | hk3
        · subst hk3
          refine remove_absent ?_ (.attr b a l2 c2) _ ?_ ?_ <;>
            exact alGet_alDel_self _ _
        · exact remove_aliasNames _ (.attr b a l2 c2) k hk3
      | subscript b s2 l2 c2 =>
        have hk2 : k ∈ nameOf (Expr.subscript v (.indexNode (.subscript b s2 l2 c2)) l c) :: aliasNames (.subscript b s2 l2 c2) := hk
        rcases List.mem_cons.mp hk2 with hk3 | hk3
        · subst hk3
          refine remove_absent ?_ (.subscript b s2 l2 c2) _ ?_ ?_ <;>
            exact alGet_alDel_self _ _
        · exact remove_aliasNames _ (.subscript b s2 l2 c2) k hk3
      | listDisplay elts l2 c2 =>
        have hk2 : k ∈ nameOf (Expr.subscript v (.indexNode (.listDisplay elts l2 c2)) l c) :: aliasNames (.listDisplay elts l2 c2) := hk
        rcases List.mem_cons.mp hk2 with hk3 | hk3
        · subst hk3
          refine remove_absent ?_ (.listDisplay elts l2 c2) _ ?_ ?_ <;>
            exact alGet_alDel_self _ _
        · exact remove_aliasNames _ (.listDisplay elts l2 c2) k hk3
      | tuple elts l2 c2 =>
        have hk2 : k ∈ nameOf (Expr.subscript v (.indexNode (.tuple elts l2 c2)) l c) :: aliasNamesList elts := hk
        rcases List.mem_cons.mp hk2 with hk3 | hk3
        · subst hk3
          refine remove_absent_list ?_ elts _ ?_ ?_ <;>
            exact alGet_alDel_self _ _
        · exact remove_aliasNames_list _ elts k hk3
      | indexNode v2 =>
        have hk2 : k ∈ nameOf (Expr.subscript v (.indexNode (.indexNode v2)) l c) :: aliasNames (.indexNode v2) := hk
        rcases List.mem_cons.mp hk2 with hk3 | hk3
        · subst hk3
          refine remove_absent ?_ (.indexNode v2) _ ?_ ?_ <;>
            exact alGet_alDel_self _ _
        · exact remove_aliasNames _ (.indexNode v2) k hk3

theorem remove_aliasNames_list (st : VState) (es : Exprs) (k : String)
    (hk : k ∈ aliasNamesList es) :
    alGet (removeImportViolationsList st es).deprecated_imports k = none ∧
    alGet (removeImportViolationsList st es).union_imports k = none := by
  cases es with
  | nil => simp [aliasNamesList] at hk
  | cons e es =>
    simp only [aliasNamesList, List.mem_append] at hk
    rcases hk with hk | hk
    · have h1 := remove_aliasNames st e k hk
      have h2 := remove_absent_list (removeImportViolations st e) es k h1.1 h1.2
      simpa [removeImportViolationsList] using h2
    · have h2 := remove_aliasNames_list (removeImportViolations st e) es k hk
      simpa [removeImportViolationsList] using h2

end

/-- All violations in a bucket carry message codes in `[lo, hi]`. -/
def VCode (lo hi : Nat) (l : List Violation) : Prop :=
  ∀ w ∈ l, lo ≤ w.msg ∧ w.msg ≤ hi

theorem VCode_append {lo hi : Nat} {a b : List Violation}
    (ha : VCode lo hi a) (hb : VCode lo hi b) : VCode lo hi (a ++ b) := by
  intro w hw
  rcases List.mem_append.mp hw with hw | hw
  · exact ha w hw
  · exact hb w hw

theorem VCode_nil {lo hi : Nat} : VCode lo hi [] := by
  intro w hw
  simp at hw

theorem DEPRECATED_TYPES_use_code {tn repl : String} {im um : Nat}
    (h : alGet DEPRECATED_TYPES tn = some (repl, im, um)) :
    200 ≤ um ∧ um ≤ 299 := by
  have hall : ∀ p ∈ DEPRECATED_TYPES, 200 ≤ p.2.2.2 ∧ p.2.2.2 ≤ 299 := by decide
  exact hall _ (alGet_mem h)

theorem REPLACED_TYPES_use_code {tn repl : String} {im um : Nat}
    (h : alGet REPLACED_TYPES tn = some (repl, im, um)) :
    200 ≤ um ∧ um ≤ 299 := by
  have hall : ∀ p ∈ REPLACED_TYPES, 200 ≤ p.2.2.2 ∧ p.2.2.2 ≤ 299 := by decide
  exact hall _ (alGet_mem h)

theorem DEPRECATED_TYPES_import_code {tn repl : String} {im um : Nat}
    (h : alGet DEPRECATED_TYPES tn = some (repl, im, um)) :
    100 ≤ im ∧ im ≤ 199 := by
  have hall : ∀ p ∈ DEPRECATED_TYPES, 100 ≤ p.2.2.1 ∧ p.2.2.1 ≤ 199 := by decide
  exact hall _ (alGet_mem h)

theorem REPLACED_TYPES_import_code {tn repl : String} {im um : Nat}
    (h : alGet REPLACED_TYPES tn = some (repl, im, um)) :
    100 ≤ im ∧ im ≤ 199 := by
  have hall : ∀ p ∈ REPLACED_TYPES, 100 ≤ p.2.2.1 ∧ p.2.2.1 ≤ 199 := by decide
  exact hall _ (alGet_mem h)

theorem REQUIRED_TYPES_use_code {tn repl : String} {um : Nat}
    (h : alGet REQUIRED_TYPES tn = some (repl, um)) :
    300 ≤ um ∧ um ≤ 399 := by
  have hall : ∀ p ∈ REQUIRED_TYPES, 300 ≤ p.2.2 ∧ p.2.2 ≤ 399 := by decide
  exact hall _ (alGet_mem h)

theorem deprecatedHead_codes (tm : List (String × String)) (e : Expr) :
    VCode 200 299 (deprecatedHead tm e) := by
  intro w hw
  unfold deprecatedHead at hw
  split at hw
  all_goals first
  | simp at hw
  | (split at hw
     · split at hw
       · rename_i repl im um heq
         simp at hw
         subst hw
         exact DEPRECATED_TYPES_use_code heq
       · split at hw
         · rename_i repl im um heq
           simp at hw
           subst hw
           exact REPLACED_TYPES_use_code heq
         · simp at hw
     · simp at hw)

theorem requiredHead_codes (tm : List (String × String)) (e : Expr) :
    VCode 300 399 (requiredHead tm e) := by
  intro w hw
  unfold requiredHead at hw
  split at hw
  all_goals first
  | simp at hw
  | (split at hw
     · split at hw
       · rename_i repl um heq
         simp at hw
         subst hw
         exact REQUIRED_TYPES_use_code heq
       · simp at hw
     · simp at hw)

theorem unionHead_codes (tm : List (String × String)) (e : Expr) :
    VCode 401 401 (unionHead tm e) := by
  intro w hw
  unfold unionHead at hw
  split at hw
  all_goals first
  | (simp at hw; done)
  | (split at hw
     · simp at hw
       subst hw
       simp [UNION_TYPE]
     · simp at hw)

theorem deprecatedImportEntry_codes {l c : Nat} {tn : String} {w : Violation}
    (h : deprecatedImportEntry l c tn = some w) :
    100 ≤ w.msg ∧ w.msg ≤ 199 := by
  unfold deprecatedImportEntry at h
  split at h
  · rename_i repl im um heq
    rw [Option.some_inj] at h
    subst h
    exact REPLACED_TYPES_import_code heq
  · split at h
    · rename_i repl im um heq
      rw [Option.some_inj] at h
      subst h
      exact DEPRECATED_TYPES_import_code heq
    · simp at h

mutual

theorem checkDeprecated_codes (tm : List (String × String)) (e : Expr) :
    VCode 200 299 (checkDeprecated tm e) := by
  cases e with
  | constant cv l c =>
    intro w hw
    have hw2 : w ∈ deprecatedHead tm (.constant cv l c) := hw
    exact deprecatedHead_codes tm _ w hw2
  | name id l c =>
    intro w hw
    have hw2 : w ∈ deprecatedHead tm (.name id l c) := hw
    exact deprecatedHead_codes tm _ w hw2
  | attr b a l c =>
    intro w hw
    have hw2 : w ∈ deprecatedHead tm (.attr b a l c) := hw
    exact deprecatedHead_codes tm _ w hw2
  | indexNode v =>
    intro w hw
    have hw2 : w ∈ deprecatedHead tm (.indexNode v) := hw
    exact deprecatedHead_codes tm _ w hw2
  | tuple elts l c =>
    intro w hw
    have hw2 : w ∈ deprecatedHead tm (.tuple elts l c) := hw
    exact deprecatedHead_codes tm _ w hw2
  | listDisplay elts l c =>
    intro w hw
    have hw2 : w ∈ deprecatedHead tm (.listDisplay elts l c) := hw
    exact deprecatedHead_codes tm _ w hw2
  | subscript v sl l c =>
    cases sl with
    | constant cv l2 c2 =>
      intro w hw
      have hw2 : w ∈ deprecatedHead tm (Expr.subscript v (.constant cv l2 c2) l c) ++ checkDeprecated tm (.constant cv l2 c2) := hw
      rcases List.mem_append.mp hw2 with h | h
      · exact deprecatedHead_codes tm _ w h
      · exact checkDeprecated_codes tm (.constant cv l2 c2) w h
    | name id l2 c2 =>
      intro w hw
      have hw2 : w ∈ deprecatedHead tm (Expr.subscript v (.name id l2 c2) l c) ++ checkDeprecated tm (.name id l2 c2) := hw
      rcases List.mem_append.mp hw2 with h | h
      · exact deprecatedHead_codes tm _ w h
      · exact checkDeprecated_codes tm (.name id l2 c2) w h
    | attr b a l2 c2 =>
      intro w hw
      have hw2 : w ∈ deprecatedHead tm (Expr.subscript v (.attr b a l2 c2) l c) ++ checkDeprecated tm (.attr b a l2 c2) := hw
      rcases List.mem_append.mp hw2 with h | h
      · exact deprecatedHead_codes tm _ w h
      · exact checkDeprecated_codes tm (.attr b a l2 c2) w h
    | subscript b s2 l2 c2 =>
      intro w hw
      have hw2 : w ∈ deprecatedHead tm (Expr.subscript v (.subscript b s2 l2 c2) l c) ++ checkDeprecated tm (.subscript b s2 l2 c2) := hw
      rcases List.mem_append.mp hw2 with h | h
      · exact deprecatedHead_codes tm _ w h
      · exact checkDeprecated_codes tm (.subscript b s2 l2 c2) w h
    | listDisplay elts l2 c2 =>
      intro w hw
      have hw2 : w ∈ deprecatedHead tm (Expr.subscript v (.listDisplay elts l2 c2) l c) ++ checkDeprecated tm (.listDisplay elts l2 c2) := hw
      rcases List.mem_append.mp hw2 with h | h
      · exact deprecatedHead_codes tm _ w h
      · exact checkDeprecated_codes tm (.listDisplay elts l2 c2) w h
    | tuple elts l2 c2 =>
      intro w hw
      have hw2 : w ∈ deprecatedHead tm (Expr.subscript v (.tuple elts l2 c2) l c) ++ checkDeprecatedList tm elts := hw
      rcases List.mem_append.mp hw2 with h | h
      · exact deprecatedHead_codes tm _ w h
      · exact checkDeprecatedList_codes tm elts w h
    | indexNode inner =>
      cases inner with
      | constant cv l2 c2 =>
        intro w hw
        have hw2 : w ∈ deprecatedHead tm (Expr.subscript v (.indexNode (.constant cv l2 c2)) l c) ++ checkDeprecated tm (.constant cv l2 c2) := hw
        rcases List.mem_append.mp hw2 with h | h
        · exact deprecatedHead_codes tm _ w h
        · exact checkDeprecated_codes tm (.constant cv l2 c2) w h
      | name id l2 c2 =>
        intro w hw
        have hw2 : w ∈ deprecatedHead tm (Expr.subscript v (.indexNode (.name id l2 c2)) l c) ++ checkDeprecated tm (.name id l2 c2) := hw
        rcases List.mem_append.mp hw2 with h | h
        · exact deprecatedHead_codes tm _ w h
        · exact checkDeprecated_codes tm (.name id l2 c2) w h
      | attr b a l2 c2 =>
        intro w hw
        have hw2 : w ∈ deprecatedHead tm (Expr.subscript v (.indexNode (.attr b a l2 c2)) l c) ++ checkDeprecated tm (.attr b a l2 c2) := hw
        rcases List.mem_append.mp hw2 with h | h
        · exact deprecatedHead_codes tm _ w h
        · exact checkDeprecated_codes tm (.attr b a l2 c2) w h
      | subscript b s2 l2 c2 =>
        intro w hw
        have hw2 : w ∈ deprecatedHead tm (Expr.subscript v (.indexNode (.subscript b s2 l2 c2)) l c) ++ checkDeprecated tm (.subscript b s2 l2 c2) := hw
        rcases List.mem_append.mp hw2 with h | h
        · exact deprecatedHead_codes tm _ w h
        · exact checkDeprecated_codes tm (.subscript b s2 l2 c2) w h
      | listDisplay elts l2 c2 =>
        intro w hw
        have hw2 : w ∈ deprecatedHead tm (Expr.subscript v (.indexNode (.listDisplay elts l2 c2)) l c) ++ checkDeprecated tm (.listDisplay elts l2 c2) := hw
        rcases List.mem_append.mp hw2 with h | h
        · exact deprecatedHead_codes tm _ w h
        · exact checkDeprecated_codes tm (.listDisplay elts l2 c2) w h
      | tuple elts l2 c2 =>
        intro w hw
        have hw2 : w ∈ deprecatedHead tm (Expr.subscript v (.indexNode (.tuple elts l2 c2)) l c) ++ checkDeprecatedList tm elts := hw
        rcases List.mem_append.mp hw2 with h | h
        · exact deprecatedHead_codes tm _ w h
        · exact checkDeprecatedList_codes tm elts w h
      | indexNode v2 =>
        intro w hw
        have hw2 : w ∈ deprecatedHead tm (Expr.subscript v (.indexNode (.indexNode v2)) l c) ++ checkDeprecated tm (.indexNode v2) := hw
        rcases List.mem_append.mp hw2 with h | h
        · exact deprecatedHead_codes tm _ w h
        · exact checkDeprecated_codes tm (.indexNode v2) w h

theorem checkDeprecatedList_codes (tm : List (String × String)) (es : Exprs) :
    VCode 200 299 (checkDeprecatedList tm es) := by
  cases es with
  | nil =>
    intro w hw
    simp [checkDeprecatedList] at hw
  | cons e es =>
    intro w hw
    have hw2 : w ∈ checkDeprecated tm e ++ checkDeprecatedList tm es := hw
    rcases List.mem_append.mp hw2 with h | h
    · exact checkDeprecated_codes tm e w h
    · exact checkDeprecatedList_codes tm es w h

end

mutual

theorem checkRequired_codes (tm : List (String × String)) (e : Expr) :
    VCode 300 399 (checkRequired tm e) := by
  cases e with
  | constant cv l c =>
    intro w hw
    have hw2 : w ∈ requiredHead tm (.constant cv l c) := hw
    exact requiredHead_codes tm _ w hw2
  | name id l c =>
    intro w hw
    have hw2 : w ∈ requiredHead tm (.name id l c) := hw
    exact requiredHead_codes tm _ w hw2
  | attr b a l c =>
    intro w hw
    have hw2 : w ∈ requiredHead tm (.attr b a l c) := hw
    exact requiredHead_codes tm _ w hw2
  | indexNode v =>
    intro w hw
    have hw2 : w ∈ requiredHead tm (.indexNode v) := hw
    exact requiredHead_codes tm _ w hw2
  | tuple elts l c =>
    intro w hw
    have hw2 : w ∈ requiredHead tm (.tuple elts l c) := hw
    exact requiredHead_codes tm _ w hw2
  | listDisplay elts l c =>
    intro w hw
    have hw2 : w ∈ requiredHead tm (.listDisplay elts l c) := hw
    exact requiredHead_codes tm _ w hw2
  | subscript v sl l c =>
    cases sl with
    | constant cv l2 c2 =>
      intro w hw
      have hw2 : w ∈ requiredHead tm (Expr.subscript v (.constant cv l2 c2) l c) ++ checkRequired tm (.constant cv l2 c2) := hw
      rcases List.mem_append.mp hw2 with h | h
      · exact requiredHead_codes tm _ w h
      · exact checkRequired_codes tm (.constant cv l2 c2) w h
    | name id l2 c2 =>
      intro w hw
      have hw2 : w ∈ requiredHead tm (Expr.subscript v (.name id l2 c2) l c) ++ checkRequired tm (.name id l2 c2) := hw
      rcases List.mem_append.mp hw2 with h | h
      · exact requiredHead_codes tm _ w h
      · exact checkRequired_codes tm (.name id l2 c2) w h
    | attr b a l2 c2 =>
      intro w hw
      have hw2 : w ∈ requiredHead tm (Expr.subscript v (.attr b a l2 c2) l c) ++ checkRequired tm (.attr b a l2 c2) := hw
      rcases List.mem_append.mp hw2 with h | h
      · exact requiredHead_codes tm _ w h
      · exact checkRequired_codes tm (.attr b a l2 c2) w h
    | subscript b s2 l2 c2 =>
      intro w hw
      have hw2 : w ∈ requiredHead tm (Expr.subscript v (.subscript b s2 l2 c2) l c) ++ checkRequired tm (.subscript b s2 l2 c2) := hw
      rcases List.mem_append.mp hw2 with h | h
      · exact requiredHead_codes tm _ w h
      · exact checkRequired_codes tm (.subscript b s2 l2 c2) w h
    | listDisplay elts l2 c2 =>
      intro w hw
      have hw2 : w ∈ requiredHead tm (Expr.subscript v (.listDisplay elts l2 c2) l c) ++ checkRequired tm (.listDisplay elts l2 c2) := hw
      rcases List.mem_append.mp hw2 with h | h
      · exact requiredHead_codes tm _ w h
      · exact checkRequired_codes tm (.listDisplay elts l2 c2) w h
    | tuple elts l2 c2 =>
      intro w hw
      have hw2 : w ∈ requiredHead tm (Expr.subscript v (.tuple elts l2 c2) l c) ++ checkRequiredList tm elts := hw
      rcases List.mem_append.mp hw2 with h | h
      · exact requiredHead_codes tm _ w h
      · exact checkRequiredList_codes tm elts w h
    | indexNode inner =>
      cases inner with
      | constant cv l2 c2 =>
        intro w hw
        have hw2 : w ∈ requiredHead tm (Expr.subscript v (.indexNode (.constant cv l2 c2)) l c) ++ checkRequired tm (.constant cv l2 c2) := hw
        rcases List.mem_append.mp hw2 with h | h
        · exact requiredHead_codes tm _ w h
        · exact checkRequired_codes tm (.constant cv l2 c2) w h
      | name id l2 c2 =>
        intro w hw
        have hw2 : w ∈ requiredHead tm (Expr.subscript v (.indexNode (.name id l2 c2)) l c) ++ checkRequired tm (.name id l2 c2) := hw
        rcases List.mem_append.mp hw2 with h | h
        · exact requiredHead_codes tm _ w h
        · exact checkRequired_codes tm (.name id l2 c2) w h
      | attr b a l2 c2 =>
        intro w hw
        have hw2 : w ∈ requiredHead tm (Expr.subscript v (.indexNode (.attr b a l2 c2)) l c) ++ checkRequired tm (.attr b a l2 c2) := hw
        rcases List.mem_append.mp hw2 with h | h
        · exact requiredHead_codes tm _ w h
        · exact checkRequired_codes tm (.attr b a l2 c2) w h
      | subscript b s2 l2 c2 =>
        intro w hw
        have hw2 : w ∈ requiredHead tm (Expr.subscript v (.indexNode (.subscript b s2 l2 c2)) l c) ++ checkRequired tm (.subscript b s2 l2 c2) := hw
        rcases List.mem_append.mp hw2 with h | h
        · exact requiredHead_codes tm _ w h
        · exact checkRequired_codes tm (.subscript b s2 l2 c2) w h
      | listDisplay elts l2 c2 =>
        intro w hw
        have hw2 : w ∈ requiredHead tm (Expr.subscript v (.indexNode (.listDisplay elts l2 c2)) l c) ++ checkRequired tm (.listDisplay elts l2 c2) := hw
        rcases List.mem_append.mp hw2 with h | h
        · exact requiredHead_codes tm _ w h
        · exact checkRequired_codes tm (.listDisplay elts l2 c2) w h
      | tuple elts l2 c2 =>
        intro w hw
        have hw2 : w ∈ requiredHead tm (Expr.subscript v (.indexNode (.tuple elts l2 c2)) l c) ++ checkRequiredList tm elts := hw
        rcases List.mem_append.mp hw2 with h | h
        · exact requiredHead_codes tm _ w h
        · exact checkRequiredList_codes tm elts w h
      | indexNode v2 =>
        intro w hw
        have hw2 : w ∈ requiredHead tm (Expr.subscript v (.indexNode (.indexNode v2)) l c) ++ checkRequired tm (.indexNode v2) := hw
        rcases List.mem_append.mp hw2 with h | h
        · exact requiredHead_codes tm _ w h
        · exact checkRequired_codes tm (.indexNode v2) w h

theorem checkRequiredList_codes (tm : List (String × String)) (es : Exprs) :
    VCode 300 399 (checkRequiredList tm es) := by
  cases es with
  | nil =>
    intro w hw
    simp [checkRequiredList] at hw
  | cons e es =>
    intro w hw
    have hw2 : w ∈ checkRequired tm e ++ checkRequiredList tm es := hw
    rcases List.mem_append.mp hw2 with h | h
    · exact checkRequired_codes tm e w h
    · exact checkRequiredList_codes tm es w h

end

mutual

theorem checkUnion_codes (tm : List (String × String)) (e : Expr) :
    VCode 401 401 (checkUnion tm e) := by
  cases e with
  | constant cv l c =>
    intro w hw
    have hw2 : w ∈ unionHead tm (.constant cv l c) := hw
    exact unionHead_codes tm _ w hw2
  | name id l c =>
    intro w hw
    have hw2 : w ∈ unionHead tm (.name id l c) := hw
    exact unionHead_codes tm _ w hw2
  | attr b a l c =>
    intro w hw
    have hw2 : w ∈ unionHead tm (.attr b a l c) := hw
    exact unionHead_codes tm _ w hw2
  | indexNode v =>
    intro w hw
    have hw2 : w ∈ unionHead tm (.indexNode v) := hw
    exact unionHead_codes tm _ w hw2
  | tuple elts l c =>
    intro w hw
    have hw2 : w ∈ unionHead tm (.tuple elts l c) := hw
    exact unionHead_codes tm _ w hw2
  | listDisplay elts l c =>
    intro w hw
    have hw2 : w ∈ unionHead tm (.listDisplay elts l c) := hw
    exact unionHead_codes tm _ w hw2
  | subscript v sl l c =>
    cases sl with
    | constant cv l2 c2 =>
      intro w hw
      have hw2 : w ∈ unionHead tm (Expr.subscript v (.constant cv l2 c2) l c) ++ checkUnion tm (.constant cv l2 c2) := hw
      rcases List.mem_append.mp hw2 with h | h
      · exact unionHead_codes tm _ w h
      · exact checkUnion_codes tm (.constant cv l2 c2) w h
    | name id l2 c2 =>
      intro w hw
      have hw2 : w ∈ unionHead tm (Expr.subscript v (.name id l2 c2) l c) ++ checkUnion tm (.name id l2 c2) := hw
      rcases List.mem_append.mp hw2 with h | h
      · exact unionHead_codes tm _ w h
      · exact checkUnion_codes tm (.name id l2 c2) w h
    | attr b a l2 c2 =>
      intro w hw
      have hw2 : w ∈ unionHead tm (Expr.subscript v (.attr b a l2 c2) l c) ++ checkUnion tm (.attr b a l2 c2) := hw
      rcases List.mem_append.mp hw2 with h | h
      · exact unionHead_codes tm _ w h
      · exact checkUnion_codes tm (.attr b a l2 c2) w h
    | subscript b s2 l2 c2 =>
      intro w hw
      have hw2 : w ∈ unionHead tm (Expr.subscript v (.subscript b s2 l2 c2) l c) ++ checkUnion tm (.subscript b s2 l2 c2) := hw
      rcases List.mem_append.mp hw2 with h | h
      · exact unionHead_codes tm _ w h
      · exact checkUnion_codes tm (.subscript b s2 l2 c2) w h
    | listDisplay elts l2 c2 =>
      intro w hw
      have hw2 : w ∈ unionHead tm (Expr.subscript v (.listDisplay elts l2 c2) l c) ++ checkUnion tm (.listDisplay elts l2 c2) := hw
      rcases List.mem_append.mp hw2 with h | h
      · exact unionHead_codes tm _ w h
      · exact checkUnion_codes tm (.listDisplay elts l2 c2) w h
    | tuple elts l2 c2 =>
      intro w hw
      have hw2 : w ∈ unionHead tm (Expr.subscript v (.tuple elts l2 c2) l c) ++ checkUnionList tm elts := hw
      rcases List.mem_append.mp hw2 with h | h
      · exact unionHead_codes tm _ w h
      · exact checkUnionList_codes tm elts w h
    | indexNode inner =>
      cases inner with
      | constant cv l2 c2 =>
        intro w hw
        have hw2 : w ∈ unionHead tm (Expr.subscript v (.indexNode (.constant cv l2 c2)) l c) ++ checkUnion tm (.constant cv l2 c2) := hw
        rcases List.mem_append.mp hw2 with h | h
        · exact unionHead_codes tm _ w h
        · exact checkUnion_codes tm (.constant cv l2 c2) w h
      | name id l2 c2 =>
        intro w hw
        have hw2 : w ∈ unionHead tm (Expr.subscript v (.indexNode (.name id l2 c2)) l c) ++ checkUnion tm (.name id l2 c2) := hw
        rcases List.mem_append.mp hw2 with h | h
        · exact unionHead_codes tm _ w h
        · exact checkUnion_codes tm (.name id l2 c2) w h
      | attr b a l2 c2 =>
        intro w hw
        have hw2 : w ∈ unionHead tm (Expr.subscript v (.indexNode (.attr b a l2 c2)) l c) ++ checkUnion tm (.attr b a l2 c2) := hw
        rcases List.mem_append.mp hw2 with h | h
        · exact unionHead_codes tm _ w h
        · exact checkUnion_codes tm (.attr b a l2 c2) w h
      | subscript b s2 l2 c2 =>
        intro w hw
        have hw2 : w ∈ unionHead tm (Expr.subscript v (.indexNode (.subscript b s2 l2 c2)) l c) ++ checkUnion tm (.subscript b s2 l2 c2) := hw
        rcases List.mem_append.mp hw2 with h | h
        · exact unionHead_codes tm _ w h
        · exact checkUnion_codes tm (.subscript b s2 l2 c2) w h
      | listDisplay elts l2 c2 =>
        intro w hw
        have hw2 : w ∈ unionHead tm (Expr.subscript v (.indexNode (.listDisplay elts l2 c2)) l c) ++ checkUnion tm (.listDisplay elts l2 c2) := hw
        rcases List.mem_append.mp hw2 with h | h
        · exact unionHead_codes tm _ w h
        · exact checkUnion_codes tm (.listDisplay elts l2 c2) w h
      | tuple elts l2 c2 =>
        intro w hw
        have hw2 : w ∈ unionHead tm (Expr.subscript v (.indexNode (.tuple elts l2 c2)) l c) ++ checkUnionList tm elts := hw
        rcases List.mem_append.mp hw2 with h | h
        · exact unionHead_codes tm _ w h
        · exact checkUnionList_codes tm elts w h
      | indexNode v2 =>
        intro w hw
        have hw2 : w ∈ unionHead tm (Expr.subscript v (.indexNode (.indexNode v2)) l c) ++ checkUnion tm (.indexNode v2) := hw
        rcases List.mem_append.mp hw2 with h | h
        · exact unionHead_codes tm _ w h
        · exact checkUnion_codes tm (.indexNode v2) w h

theorem checkUnionList_codes (tm : List (String × String)) (es : Exprs) :
    VCode 401 401 (checkUnionList tm es) := by
  cases es with
  | nil =>
    intro w hw
    simp [checkUnionList] at hw
  | cons e es =>
    intro w hw
    have hw2 : w ∈ checkUnion tm e ++ checkUnionList tm es := hw
    rcases List.mem_append.mp hw2 with h | h
    · exact checkUnion_codes tm e w h
    · exact checkUnionList_codes tm es w h

end

mutual

theorem checkPostponed_msgs (tm : List (String × String)) (msg : Nat) (e : Expr) :
    VCode msg msg (checkPostponed tm msg e) := by
  cases e with
  | constant cv l c =>
    intro w hw
    have hw2 : w ∈ (if cv = ConstVal.noneV ∨ cv = ConstVal.ellipsisV then ([] : List Violation)
        else [⟨l, c, msg, .val cv⟩]) := hw
    split at hw2
    · simp at hw2
    · simp at hw2
      subst hw2
      simp
  | name id l c =>
    intro w hw
    simp [checkPostponed] at hw
  | attr v a l c =>
    intro w hw
    simp [checkPostponed] at hw
  | indexNode v =>
    intro w hw
    simp [checkPostponed] at hw
  | tuple elts l c =>
    intro w hw
    simp [checkPostponed] at hw
  | listDisplay elts l c =>
    intro w hw
    simp [checkPostponed] at hw
  | subscript v sl l c =>
    cases sl with
    | constant cv2 l2 c2 =>
      intro w hw
      have hw2 : w ∈ (if literalExempt tm v then ([] : List Violation) else checkPostponed tm msg (.constant cv2 l2 c2)) := hw
      split at hw2
      · simp at hw2
      · exact checkPostponed_msgs tm msg (.constant cv2 l2 c2) w hw2
    | name id l2 c2 =>
      intro w hw
      have hw2 : w ∈ (if literalExempt tm v then ([] : List Violation) else checkPostponed tm msg (.name id l2 c2)) := hw
      split at hw2
      · simp at hw2
      · exact checkPostponed_msgs tm msg (.name id l2 c2) w hw2
    | attr b a l2 c2 =>
      intro w hw
      have hw2 : w ∈ (if literalExempt tm v then ([] : List Violation) else checkPostponed tm msg (.attr b a l2 c2)) := hw
      split at hw2
      · simp at hw2
      · exact checkPostponed_msgs tm msg (.attr b a l2 c2) w hw2
    | subscript b s2 l2 c2 =>
      intro w hw
      have hw2 : w ∈ (if literalExempt tm v then ([] : List Violation) else checkPostponed tm msg (.subscript b s2 l2 c2)) := hw
      split at hw2
      · simp at hw2
      · exact checkPostponed_msgs tm msg (.subscript b s2 l2 c2) w hw2
    | listDisplay elts l2 c2 =>
      intro w hw
      have hw2 : w ∈ (if literalExempt tm v then ([] : List Violation) else checkPostponed tm msg (.listDisplay elts l2 c2)) := hw
      split at hw2
      · simp at hw2
      · exact checkPostponed_msgs tm msg (.listDisplay elts l2 c2) w hw2
    | tuple elts l2 c2 =>
      intro w hw
      have hw2 : w ∈ (if literalExempt tm v then ([] : List Violation) else checkPostponedList tm msg elts) := hw
      split at hw2
      · simp at hw2
      · exact checkPostponedList_msgs tm msg elts w hw2
    | indexNode inner =>
      cases inner with
      | constant cv2 l2 c2 =>
        intro w hw
        have hw2 : w ∈ (if literalExempt tm v then ([] : List Violation) else checkPostponed tm msg (.constant cv2 l2 c2)) := hw
        split at hw2
        · simp at hw2
        · exact checkPostponed_msgs tm msg (.constant cv2 l2 c2) w hw2
      | name id l2 c2 =>
        intro w hw
        have hw2 : w ∈ (if literalExempt tm v then ([] : List Violation) else checkPostponed tm msg (.name id l2 c2)) := hw
        split at hw2
        · simp at hw2
        · exact checkPostponed_msgs tm msg (.name id l2 c2) w hw2
      | attr b a l2 c2 =>
        intro w hw
        have hw2 : w ∈ (if literalExempt tm v then ([] : List Violation) else checkPostponed tm msg (.attr b a l2 c2)) := hw
        split at hw2
        · simp at hw2
        · exact checkPostponed_msgs tm msg (.attr b a l2 c2) w hw2
      | subscript b s2 l2 c2 =>
        intro w hw
        have hw2 : w ∈ (if literalExempt tm v then ([] : List Violation) else checkPostponed tm msg (.subscript b s2 l2 c2)) := hw
        split at hw2
        · simp at hw2
        · exact checkPostponed_msgs tm msg (.subscript b s2 l2 c2) w hw2
      | listDisplay elts l2 c2 =>
        intro w hw
        have hw2 : w ∈ (if literalExempt tm v then ([] : List Violation) else checkPostponed tm msg (.listDisplay elts l2 c2)) := hw
        split at hw2
        · simp at hw2
        · exact checkPostponed_msgs tm msg (.listDisplay elts l2 c2) w hw2
      | tuple elts l2 c2 =>
        intro w hw
        have hw2 : w ∈ (if literalExempt tm v then ([] : List Violation) else checkPostponedList tm msg elts) := hw
        split at hw2
        · simp at hw2
        · exact checkPostponedList_msgs tm msg elts w hw2
      | indexNode v2 =>
        intro w hw
        have hw2 : w ∈ (if literalExempt tm v then ([] : List Violation) else checkPostponed tm msg (.indexNode v2)) := hw
        split at hw2
        · simp at hw2
        · exact checkPostponed_msgs tm msg (.indexNode v2) w hw2

theorem checkPostponedList_msgs (tm : List (String × String)) (msg : Nat) (es : Exprs) :
    VCode msg msg (checkPostponedList tm msg es) := by
  cases es with
  | nil =>
    intro w hw
    simp [checkPostponedList] at hw
  | cons e es =>
    intro w hw
    have hw2 : w ∈ checkPostponed tm msg e ++ checkPostponedList tm msg es := hw
    rcases List.mem_append.mp hw2 with h | h
    · exact checkPostponed_msgs tm msg e w h
    · exact checkPostponedList_msgs tm msg es w h

end

theorem VCode_mono {lo hi lo2 hi2 : Nat} {l : List Violation}
    (hlo : lo2 ≤ lo) (hhi : hi ≤ hi2) (h : VCode lo hi l) : VCode lo2 hi2 l := by
  intro w hw
  have := h w hw
  omega

theorem checkPostponedOpt_msgs (tm : List (String × String)) (msg : Nat) (o : Option Expr) :
    VCode msg msg (checkPostponedOpt tm msg o) := by
  cases o with
  | none => exact VCode_nil
  | some e => exact checkPostponed_msgs tm msg e

theorem checkDeprecatedOpt_codes (tm : List (String × String)) (o : Option Expr) :
    VCode 200 299 (checkDeprecatedOpt tm o) := by
  cases o with
  | none => exact VCode_nil
  | some e => exact checkDeprecated_codes tm e

theorem checkUnionOpt_codes (tm : List (String × String)) (o : Option Expr) :
    VCode 401 401 (checkUnionOpt tm o) := by
  cases o with
  | none => exact VCode_nil
  | some e => exact checkUnion_codes tm e

/-- The bucket/code discipline of the visitor state: each bucket holds only
message codes of its own category. -/
def codesOK (st : VState) : Prop :=
  VCode 1 3 st.postponed ∧
  GroupAll (fun w => 100 ≤ w.msg ∧ w.msg ≤ 199) st.deprecated_imports ∧
  VCode 200 299 st.deprecated ∧
  VCode 300 399 st.required ∧
  GroupAll (fun w => 400 ≤ w.msg ∧ w.msg ≤ 400) st.union_imports ∧
  VCode 401 401 st.union

theorem fromTyping_codes (l c : Nat) (aliases : List ImpAlias) (st : VState)
    (hd : GroupAll (fun w => 100 ≤ w.msg ∧ w.msg ≤ 199) st.deprecated_imports)
    (hu : GroupAll (fun w => 400 ≤ w.msg ∧ w.msg ≤ 400) st.union_imports) :
    GroupAll (fun w => 100 ≤ w.msg ∧ w.msg ≤ 199) (fromTyping l c st aliases).deprecated_imports ∧
    GroupAll (fun w => 400 ≤ w.msg ∧ w.msg ≤ 400) (fromTyping l c st aliases).union_imports ∧
    (fromTyping l c st aliases).postponed = st.postponed ∧
    (fromTyping l c st aliases).deprecated = st.deprecated ∧
    (fromTyping l c st aliases).required = st.required ∧
    (fromTyping l c st aliases).union = st.union := by
  induction aliases generalizing st with
  | nil => exact ⟨hd, hu, rfl, rfl, rfl, rfl⟩
  | cons a rest ih =>
    show GroupAll _ (fromTyping l c st (a :: rest)).deprecated_imports ∧ _
    simp only [fromTyping]
    cases heq : deprecatedImportEntry l c ("typing." ++ a.name) with
    | some entry =>
      simp only [heq]
      exact ih _ (GroupAll_groupAdd hd (deprecatedImportEntry_codes heq)) hu
    | none =>
      simp only [heq]
      by_cases hU : ("typing." ++ a.name) = "typing.Union"
      · simp only [hU, if_pos rfl]
        refine ih _ hd (GroupAll_groupAdd hu ?_)
        simp [UNION_IMPORT]
      · simp only [if_neg hU]
        exact ih _ hd hu

theorem visitArg_codesOK (st : VState) (a : FuncArg) (h : codesOK st) :
    codesOK (visitArg st a) := by
  obtain ⟨h1, h2, h3, h4, h5, h6⟩ := h
  exact ⟨VCode_append h1 (VCode_mono (by norm_num [POSTPONED_ARG_TYPE]) (by norm_num [POSTPONED_ARG_TYPE])
           (checkPostponedOpt_msgs st.type_map POSTPONED_ARG_TYPE a.ann)),
         h2,
         VCode_append h3 (checkDeprecatedOpt_codes st.type_map a.ann),
         h4, h5,
         VCode_append h6 (checkUnionOpt_codes st.type_map a.ann)⟩

theorem foldl_visitArg_codesOK (args : List FuncArg) (st : VState) (h : codesOK st) :
    codesOK (args.foldl visitArg st) := by
  induction args generalizing st with
  | nil => exact h
  | cons a rest ih => exact ih _ (visitArg_codesOK st a h)

theorem visitArg_groups (st : VState) (a : FuncArg) :
    (visitArg st a).deprecated_imports = st.deprecated_imports ∧
    (visitArg st a).union_imports = st.union_imports ∧
    (visitArg st a).type_map = st.type_map := ⟨rfl, rfl, rfl⟩

theorem foldl_visitArg_groups (args : List FuncArg) (st : VState) :
    (args.foldl visitArg st).deprecated_imports = st.deprecated_imports ∧
    (args.foldl visitArg st).union_imports = st.union_imports := by
  induction args generalizing st with
  | nil => exact ⟨rfl, rfl⟩
  | cons a rest ih => exact ih (visitArg st a)

mutual

theorem visitStmt_codesOK (aliasMode : Bool) (st : VState) (s : Stmt)
    (h : codesOK st) : codesOK (visitStmt aliasMode st s) := by
  cases s with
  | wholeImport names => exact h
  | passStmt => exact h
  | fromImport mod names l c =>
    show codesOK (visitStmt aliasMode st (.fromImport mod names l c))
    simp only [visitStmt]
    split_ifs with h1 h2 h3 h4 h5 h6
    · have hF := fromTyping_codes l c names st h.2.1 h.2.2.2.2.1
      refine ⟨?_, hF.1, ?_, ?_, hF.2.1, ?_⟩
      · rw [hF.2.2.1]; exact h.1
      · rw [hF.2.2.2.1]; exact h.2.2.1
      · rw [hF.2.2.2.2.1]; exact h.2.2.2.1
      · rw [hF.2.2.2.2.2]; exact h.2.2.2.2.2
    all_goals exact h
  | assign v l c =>
    cases aliasMode with
    | false =>
      obtain ⟨h1, h2, h3, h4, h5, h6⟩ := h
      exact ⟨h1, h2, VCode_append h3 (checkDeprecated_codes st.type_map v), h4, h5,
             VCode_append h6 (checkUnion_codes st.type_map v)⟩
    | true =>
      obtain ⟨h1, h2, h3, h4, h5, h6⟩ := h
      have hv : visitStmt true st (.assign v l c) =
        { removeImportViolations st v with
          required := (removeImportViolations st v).required ++
            checkRequired (removeImportViolations st v).type_map v } := rfl
      rw [hv]
      have hf := remove_fields st v
      have hg := remove_GroupAll _ _ st v h2 h5
      refine ⟨?_, hg.1, ?_, ?_, hg.2, ?_⟩
      · show VCode 1 3 (removeImportViolations st v).postponed
        rw [hf.2.1]; exact h1
      · show VCode 200 299 (removeImportViolations st v).deprecated
        rw [hf.2.2.1]; exact h3
      · show VCode 300 399 ((removeImportViolations st v).required ++
          checkRequired (removeImportViolations st v).type_map v)
        refine VCode_append ?_ (checkRequired_codes _ v)
        rw [hf.2.2.2.1]; exact h4
      · show VCode 401 401 (removeImportViolations st v).union
        rw [hf.2.2.2.2]; exact h6
  | annAssign ann l c =>
    obtain ⟨h1, h2, h3, h4, h5, h6⟩ := h
    exact ⟨VCode_append h1 (VCode_mono (by norm_num [POSTPONED_ASSIGN_TYPE])
             (by norm_num [POSTPONED_ASSIGN_TYPE])
             (checkPostponed_msgs st.type_map POSTPONED_ASSIGN_TYPE ann)),
           h2, VCode_append h3 (checkDeprecated_codes st.type_map ann), h4, h5,
           VCode_append h6 (checkUnion_codes st.type_map ann)⟩
  | functionDef args ret body =>
    have hv : visitStmt aliasMode st (.functionDef args ret body) =
      (let st2 := visitStmts aliasMode (args.foldl visitArg st) body
       { st2 with
         postponed := st2.postponed ++ checkPostponedOpt st2.type_map POSTPONED_RETURN_TYPE ret,
         deprecated := st2.deprecated ++ checkDeprecatedOpt st2.type_map ret,
         union := st2.union ++ checkUnionOpt st2.type_map ret }) := rfl
    rw [hv]
    have h2 := visitStmts_codesOK aliasMode (args.foldl visitArg st) body
      (foldl_visitArg_codesOK args st h)
    obtain ⟨g1, g2, g3, g4, g5, g6⟩ := h2
    exact ⟨VCode_append g1 (VCode_mono (by norm_num [POSTPONED_RETURN_TYPE])
             (by norm_num [POSTPONED_RETURN_TYPE])
             (checkPostponedOpt_msgs _ POSTPONED_RETURN_TYPE ret)),
           g2, VCode_append g3 (checkDeprecatedOpt_codes _ ret), g4, g5,
           VCode_append g6 (checkUnionOpt_codes _ ret)⟩
  | asyncFunctionDef args ret body =>
    exact visitStmts_codesOK aliasMode (args.foldl visitArg st) body
      (foldl_visitArg_codesOK args st h)

theorem visitStmts_codesOK (aliasMode : Bool) (st : VState) (ss : Stmts)
    (h : codesOK st) : codesOK (visitStmts aliasMode st ss) := by
  cases ss with
  | nil => exact h
  | cons s ss =>
    exact visitStmts_codesOK aliasMode (visitStmt aliasMode st s) ss
      (visitStmt_codesOK aliasMode st s h)

end

mutual

theorem visitStmt_absent (aliasMode : Bool) (st : VState) (s : Stmt) (k : String)
    (hs : stmtNoTypingFrom s = true)
    (hd : alGet st.deprecated_imports k = none)
    (hu : alGet st.union_imports k = none) :
    alGet (visitStmt aliasMode st s).deprecated_imports k = none ∧
    alGet (visitStmt aliasMode st s).union_imports k = none := by
  cases s with
  | wholeImport names => exact ⟨hd, hu⟩
  | passStmt => exact ⟨hd, hu⟩
  | fromImport mod names l c =>
    show alGet (visitStmt aliasMode st (.fromImport mod names l c)).deprecated_imports k = none ∧ _
    simp only [visitStmt]
    split_ifs with h1 h2 h3 h4 h5 h6
    · simp [stmtNoTypingFrom, h1] at hs
    all_goals exact ⟨hd, hu⟩
  | assign v l c =>
    cases aliasMode with
    | false => exact ⟨hd, hu⟩
    | true =>
      have hv : visitStmt true st (.assign v l c) =
        { removeImportViolations st v with
          required := (removeImportViolations st v).required ++
            checkRequired (removeImportViolations st v).type_map v } := rfl
      rw [hv]
      exact remove_absent st v k hd hu
  | annAssign ann l c => exact ⟨hd, hu⟩
  | functionDef args ret body =>
    have hbody : stmtsNoTypingFrom body = true := hs
    have hfold := foldl_visitArg_groups args st
    have h2 := visitStmts_absent aliasMode (args.foldl visitArg st) body k hbody
      (by rw [hfold.1]; exact hd) (by rw [hfold.2]; exact hu)
    exact h2
  | asyncFunctionDef args ret body =>
    have hbody : stmtsNoTypingFrom body = true := hs
    have hfold := foldl_visitArg_groups args st
    exact visitStmts_absent aliasMode (args.foldl visitArg st) body k hbody
      (by rw [hfold.1]; exact hd) (by rw [hfold.2]; exact hu)

theorem visitStmts_absent (aliasMode : Bool) (st : VState) (ss : Stmts) (k : String)
    (hs : stmtsNoTypingFrom ss = true)
    (hd : alGet st.deprecated_imports k = none)
    (hu : alGet st.union_imports k = none) :
    alGet (visitStmts aliasMode st ss).deprecated_imports k = none ∧
    alGet (visitStmts aliasMode st ss).union_imports k = none := by
  cases ss with
  | nil => exact ⟨hd, hu⟩
  | cons s ss =>
    have hsplit : stmtNoTypingFrom s = true ∧ stmtsNoTypingFrom ss = true := by
      simpa [stmtsNoTypingFrom, Bool.and_eq_true] using hs
    have h1 := visitStmt_absent aliasMode st s k hsplit.1 hd hu
    exact visitStmts_absent aliasMode (visitStmt aliasMode st s) ss k hsplit.2 h1.1 h1.2

end

theorem initState_codesOK : codesOK initState := by
  refine ⟨?_, ?_, ?_, ?_, ?_, ?_⟩ <;> intro w hw <;> simp [initState] at hw

theorem groupValues_all {P : Violation → Prop} {g : List (String × List Violation)}
    (h : GroupAll P g) : ∀ w ∈ groupValues g, P w := by
  induction g with
  | nil => intro w hw; simp [groupValues] at hw
  | cons kv rest ih =>
    obtain ⟨k0, vs⟩ := kv
    intro w hw
    simp only [groupValues] at hw
    rcases List.mem_append.mp hw with hw | hw
    · exact h (k0, vs) (by simp) w hw
    · exact ih (fun q hq => h q (by simp [hq])) w hw

theorem visit_tree_codesOK (aliasMode : Bool) (tree : Stmts) :
    codesOK (visitStmts aliasMode initState tree) :=
  visitStmts_codesOK aliasMode initState tree initState_codesOK

theorem noTypingFrom_groups_nil (aliasMode : Bool) (tree : Stmts)
    (h : stmtsNoTypingFrom tree = true) :
    (visitStmts aliasMode initState tree).deprecated_imports = [] ∧
    (visitStmts aliasMode initState tree).union_imports = [] := by
  constructor
  · refine eq_nil_of_alGet_none _ fun k => ?_
    exact (visitStmts_absent aliasMode initState tree k h (by simp [initState, alGet])
      (by simp [initState, alGet])).1
  · refine eq_nil_of_alGet_none _ fun k => ?_
    exact (visitStmts_absent aliasMode initState tree k h (by simp [initState, alGet])
      (by simp [initState, alGet])).2

/-- Every diagnostic emitted by the checker comes from a bucket whose gate
flag is on and carries that category's code range. -/
theorem checkerOutput_mem (p d a u : Bool) (tree : Stmts) (w : Violation)
    (hw : w ∈ checkerOutput p d a u tree) :
    (p = true ∧ 1 ≤ w.msg ∧ w.msg ≤ 3) ∨
    (d = true ∧ 100 ≤ w.msg ∧ w.msg ≤ 399) ∨
    (u = true ∧ 400 ≤ w.msg ∧ w.msg ≤ 401) := by
  obtain ⟨g1, g2, g3, g4, g5, g6⟩ := visit_tree_codesOK a tree
  simp only [checkerOutput] at hw
  rcases List.mem_append.mp hw with hw | hw
  · rcases List.mem_append.mp hw with hw | hw
    · cases p with
      | false => simp at hw
      | true => exact Or.inl ⟨rfl, g1 w hw⟩
    · cases d with
      | false => simp at hw
      | true =>
        refine Or.inr (Or.inl ⟨rfl, ?_⟩)
        rcases List.mem_append.mp hw with hw | hw
        · rcases List.mem_append.mp hw with hw | hw
          · have := groupValues_all g2 w hw
            omega
          · have := g3 w hw
            omega
        · have := g4 w hw
          omega
  · cases u with
    | false => simp at hw
    | true =>
      refine Or.inr (Or.inr ⟨rfl, ?_⟩)
      rcases List.mem_append.mp hw with hw | hw
      · have := groupValues_all g5 w hw
        omega
      · have := g6 w hw
        omega

/-- A subscript whose head passes the Literal guard yields no postponed
diagnostics, whatever the slice. -/
theorem checkPostponed_subscript_exempt (tm : List (String × String)) (msg : Nat)
    (v sl : Expr) (l c : Nat) (hE : literalExempt tm v = true) :
    checkPostponed tm msg (.subscript v sl l c) = [] := by
  cases sl with
  | constant cv l2 c2 => simp [checkPostponed, hE]
  | name id l2 c2 => simp [checkPostponed, hE]
  | attr b a l2 c2 => simp [checkPostponed, hE]
  | subscript b s2 l2 c2 => simp [checkPostponed, hE]
  | tuple elts l2 c2 => simp [checkPostponed, hE]
  | listDisplay elts l2 c2 => simp [checkPostponed, hE]
  | indexNode inner => cases inner <;> simp [checkPostponed, hE]

/-- Claim C3 (code bug): the whole-module import branch for `re` iterates
`CONTEXTLIB_TYPES` instead of `RE_TYPES` (checker.py line 551), so after
`import re` the alias map does not resolve `re.Pattern` (and instead holds
the nonsensical `re.AbstractContextManager`), while the from-import form
resolves `Pattern` to `re.Pattern`. -/
theorem c3_re_whole_import_bug :
    alGet (visitStmt false initState (.wholeImport [⟨"re", none⟩])).type_map "re.Pattern" = none ∧
    alGet (visitStmt false initState (.wholeImport [⟨"re", none⟩])).type_map "re.AbstractContextManager" =
      some "re.AbstractContextManager" ∧
    alGet (visitStmt false initState
        (.fromImport (some "re") [⟨"Pattern", none⟩] 1 0)).type_map "Pattern" =
      some "re.Pattern" := by
  refine ⟨?_, ?_, ?_⟩ <;> decide

/-- Claim C5 (counterexample): an annotation that is an integer constant,
not a quoted string, still yields a postponed diagnostic — the postponed
base case fires on every non-sentinel constant, not only on string/text
nodes. -/
theorem c5_counterexample :
    checkerOutput true false false false
      (.cons (.annAssign (.constant (.intV 5) 1 3) 1 0) .nil) =
      [⟨1, 3, POSTPONED_ASSIGN_TYPE, .val (.intV 5)⟩] := by
  decide

/-- Claim C5 (amended): the postponed base case fires on every constant
annotation node except the `None` and `Ellipsis` sentinels (quoted strings,
but also numbers and booleans), and no non-constant, non-subscript node
shape fires. -/
theorem c5_postponed_base_amended (tm : List (String × String)) (msg : Nat) :
    (∀ cv l c, checkPostponed tm msg (.constant cv l c) =
       if cv = ConstVal.noneV ∨ cv = ConstVal.ellipsisV then []
       else [⟨l, c, msg, .val cv⟩]) ∧
    (∀ id l c, checkPostponed tm msg (.name id l c) = []) ∧
    (∀ v a l c, checkPostponed tm msg (.attr v a l c) = []) ∧
    (∀ elts l c, checkPostponed tm msg (.tuple elts l c) = []) ∧
    (∀ elts l c, checkPostponed tm msg (.listDisplay elts l c) = []) ∧
    (∀ v, checkPostponed tm msg (.indexNode v) = []) :=
  ⟨fun _ _ _ => rfl, fun _ _ _ => rfl, fun _ _ _ _ => rfl,
   fun _ _ _ => rfl, fun _ _ _ => rfl, fun _ => rfl⟩

/-- Claim C6 (counterexample): with alias mode off, a plain assignment's
right-hand side is still checked: `from typing import Dict` followed by the
plain assignment `X = Dict[str]` produces a use diagnostic (code 202) from
the deprecated evaluator, landed in the use bucket by the assignment
visit. -/
theorem c6_counterexample :
    checkerOutput false true false false
      (.cons (.fromImport (some "typing") [⟨"Dict", none⟩] 1 0)
        (.cons (.assign (.subscript (.name "Dict" 2 4) (.indexNode (.name "str" 2 9)) 2 4) 2 0)
          .nil)) =
      [⟨1, 0, 102, .nameRepl "typing.Dict" "dict"⟩,
       ⟨2, 4, 202, .nameRepl "Dict" "dict"⟩] ∧
    (visitStmts false initState
      (.cons (.fromImport (some "typing") [⟨"Dict", none⟩] 1 0)
        (.cons (.assign (.subscript (.name "Dict" 2 4) (.indexNode (.name "str" 2 9)) 2 4) 2 0)
          .nil))).deprecated =
      [⟨2, 4, 202, .nameRepl "Dict" "dict"⟩] := by
  constructor <;> decide

/-- Claim C6 (amended): plain assignments are processed in both modes.
With alias mode off the right-hand side goes through the deprecated and
union evaluators (and never the postponed or required evaluators, and both
pending-import groups are untouched); with alias mode on it goes through retraction
and the required evaluator only. -/
theorem c6_assign_processing_amended (st : VState) (v : Expr) (l c : Nat) :
    (visitStmt false st (.assign v l c)).postponed = st.postponed ∧
    (visitStmt false st (.assign v l c)).required = st.required ∧
    (visitStmt false st (.assign v l c)).deprecated_imports = st.deprecated_imports ∧
    (visitStmt false st (.assign v l c)).union_imports = st.union_imports ∧
    (visitStmt false st (.assign v l c)).deprecated = st.deprecated ++ checkDeprecated st.type_map v ∧
    (visitStmt false st (.assign v l c)).union = st.union ++ checkUnion st.type_map v ∧
    (visitStmt true st (.assign v l c)).postponed = st.postponed ∧
    (visitStmt true st (.assign v l c)).deprecated = st.deprecated ∧
    (visitStmt true st (.assign v l c)).union = st.union ∧
    (visitStmt true st (.assign v l c)).required =
      st.required ++ checkRequired st.type_map v := by
  have hf := remove_fields st v
  refine ⟨rfl, rfl, rfl, rfl, rfl, rfl, ?_, ?_, ?_, ?_⟩
  · show (removeImportViolations st v).postponed = st.postponed
    exact hf.2.1
  · show (removeImportViolations st v).deprecated = st.deprecated
    exact hf.2.2.1
  · show (removeImportViolations st v).union = st.union
    exact hf.2.2.2.2
  · show (removeImportViolations st v).required ++
      checkRequired (removeImportViolations st v).type_map v =
      st.required ++ checkRequired st.type_map v
    rw [hf.2.2.2.1, hf.1]

/-- Claim C7 (code bug): `AnnotationVisitor` has no `visit_AsyncFunctionDef`
method, so the return annotation of an async function is never passed to
the rule evaluators: `async def f() -> 'int'` with postponed checking
forced on yields nothing, while the identical plain `def` yields the
return-annotation diagnostic. -/
theorem c7_async_return_bug :
    checkerOutput true false false false
      (.cons (.asyncFunctionDef [] (some (.constant (.str "int") 1 21)) (.cons .passStmt .nil))
        .nil) = [] ∧
    checkerOutput true false false false
      (.cons (.functionDef [] (some (.constant (.str "int") 1 15)) (.cons .passStmt .nil))
        .nil) =
      [⟨1, 15, POSTPONED_RETURN_TYPE, .val (.str "int")⟩] := by
  constructor <;> decide

/-- Claim C9: the two generic-subscript slice representations — the legacy
`ast.Index` wrapper and the direct slice — are normalized to the same inner
value before recursion, so all four rule evaluators and the retraction
walker give identical results on both. -/
theorem c9_slice_normalization (tm : List (String × String)) (msg : Nat)
    (st : VState) (v s : Expr) (l c : Nat) (hs : isIndexNode s = false) :
    checkPostponed tm msg (.subscript v (.indexNode s) l c) =
      checkPostponed tm msg (.subscript v s l c) ∧
    checkDeprecated tm (.subscript v (.indexNode s) l c) =
      checkDeprecated tm (.subscript v s l c) ∧
    checkRequired tm (.subscript v (.indexNode s) l c) =
      checkRequired tm (.subscript v s l c) ∧
    checkUnion tm (.subscript v (.indexNode s) l c) =
      checkUnion tm (.subscript v s l c) ∧
    removeImportViolations st (.subscript v (.indexNode s) l c) =
      removeImportViolations st (.subscript v s l c) := by
  cases s with
  | indexNode v2 => simp [isIndexNode] at hs
  | constant cv l2 c2 => exact ⟨rfl, rfl, rfl, rfl, rfl⟩
  | name id l2 c2 => exact ⟨rfl, rfl, rfl, rfl, rfl⟩
  | attr b a l2 c2 => exact ⟨rfl, rfl, rfl, rfl, rfl⟩
  | subscript b s2 l2 c2 => exact ⟨rfl, rfl, rfl, rfl, rfl⟩
  | tuple elts l2 c2 => exact ⟨rfl, rfl, rfl, rfl, rfl⟩
  | listDisplay elts l2 c2 => exact ⟨rfl, rfl, rfl, rfl, rfl⟩

/-- Witness for C9 at a concrete subscript. -/
theorem c9_slice_normalization_witness :
    checkDeprecated [] (.subscript (.name "X" 1 0) (.indexNode (.name "Y" 1 2)) 1 0) =
      checkDeprecated [] (.subscript (.name "X" 1 0) (.name "Y" 1 2) 1 0) :=
  (c9_slice_normalization [] 1 initState (.name "X" 1 0) (.name "Y" 1 2) 1 0 (by decide)).2.1

/-- Claim C1 (counterexample): the retraction walk only descends through
subscript slices — an imported deprecated alias used inside a list display
on a type-alias assignment's right-hand side is NOT retracted: with alias
mode and deprecation on, `from typing import Dict` then `X = [Dict]` still
emits the import-group diagnostic, although the alias occurs (as a
qualified-name node) inside the right-hand expression. -/
theorem c1_counterexample :
    checkerOutput false true true false
      (.cons (.fromImport (some "typing") [⟨"Dict", none⟩] 1 0)
        (.cons (.assign (.listDisplay (.cons (.name "Dict" 2 5) .nil) 2 4) 2 0) .nil)) =
      [⟨1, 0, 102, .nameRepl "typing.Dict" "dict"⟩] := by
  decide

/-- Claim C1 (amended): for alias keys on the retraction walk's descent
(the RHS itself when it is a name/attribute/subscript, and recursively the
normalized subscript arguments — `aliasNames`), processing the type-alias
assignment deletes the pending import-violation group entry, and it stays
absent through any suffix of the tree containing no further
`from typing import`. -/
theorem c1_retraction_amended (pre post : Stmts) (v : Expr) (l c : Nat) (k : String)
    (hk : k ∈ aliasNames v) (hpost : stmtsNoTypingFrom post = true) :
    alGet (visitStmts true (visitStmt true (visitStmts true initState pre)
      (.assign v l c)) post).deprecated_imports k = none ∧
    alGet (visitStmts true (visitStmt true (visitStmts true initState pre)
      (.assign v l c)) post).union_imports k = none := by
  have h0 := remove_aliasNames (visitStmts true initState pre) v k hk
  refine visitStmts_absent true _ post k hpost ?_ ?_
  · exact h0.1
  · exact h0.2

/-- Witness for C1 (amended) at a concrete tree. -/
theorem c1_retraction_witness :
    alGet (visitStmts true (visitStmt true (visitStmts true initState
      (.cons (.fromImport (some "typing") [⟨"Dict", none⟩] 1 0) .nil))
      (.assign (.subscript (.name "Dict" 2 4) (.indexNode (.name "str" 2 9)) 2 4) 2 0))
      .nil).deprecated_imports "Dict" = none ∧
    alGet (visitStmts true (visitStmt true (visitStmts true initState
      (.cons (.fromImport (some "typing") [⟨"Dict", none⟩] 1 0) .nil))
      (.assign (.subscript (.name "Dict" 2 4) (.indexNode (.name "str" 2 9)) 2 4) 2 0))
      .nil).union_imports "Dict" = none :=
  c1_retraction_amended _ _ _ _ _ _ (by decide) (by decide)

/-- Claim C2 (counterexample): the Literal exemption exists only in the
postponed evaluator.  The deprecated evaluator does descend into a
Literal-headed subscript's arguments: `Literal[List]` (with both imported
from typing) yields a use diagnostic for the argument `List`. -/
theorem c2_counterexample :
    checkerOutput false true false false
      (.cons (.fromImport (some "typing") [⟨"Literal", none⟩, ⟨"List", none⟩] 1 0)
        (.cons (.annAssign (.subscript (.name "Literal" 2 3)
          (.indexNode (.name "List" 2 11)) 2 3) 2 0) .nil)) =
      [⟨1, 0, 101, .nameRepl "typing.List" "list"⟩,
       ⟨2, 11, 201, .nameRepl "List" "list"⟩] := by
  decide

/-- Claim C2 (amended): the postponed evaluator suppresses all diagnostics
for a subscript whose Name/Attribute head resolves through the alias map to
a literal-value construct, regardless of slice shape; the other evaluators
carry no such exemption (see the counterexample). -/
theorem c2_literal_exemption_amended (tm : List (String × String)) (msg : Nat)
    (sl : Expr) (l c : Nat) (t : String) (ht : t ∈ LITERALS) :
    (∀ id l0 c0, alGet tm id = some t →
       checkPostponed tm msg (.subscript (.name id l0 c0) sl l c) = []) ∧
    (∀ b a l0 c0, alGet tm (nameOf b ++ "." ++ a) = some t →
       checkPostponed tm msg (.subscript (.attr b a l0 c0) sl l c) = []) := by
  have hcont : LITERALS.contains t = true := by
    simp only [LITERALS] at ht
    rcases List.mem_cons.mp ht with rfl | ht2
    · decide
    · rcases List.mem_singleton.mp ht2 with rfl
      decide
  constructor
  · intro id l0 c0 hres
    apply checkPostponed_subscript_exempt
    simpa [literalExempt, nameOf, hres] using ht
  · intro b a l0 c0 hres
    apply checkPostponed_subscript_exempt
    simpa [literalExempt, nameOf, hres] using ht

/-- Witness for C2 (amended) at a concrete Literal subscript. -/
theorem c2_literal_exemption_witness :
    checkPostponed [("Literal", "typing.Literal")] 1
      (.subscript (.name "Literal" 1 0) (.constant (.str "a") 1 8) 1 0) = [] :=
  (c2_literal_exemption_amended [("Literal", "typing.Literal")] 1
    (.constant (.str "a") 1 8) 1 0 "typing.Literal" (by decide)).1 "Literal" 1 0 (by decide)

/-- Claim C8 (counterexample): the tuple-argument law fails for the
postponed evaluator on a Literal-headed subscript: `Literal['a', 'b']`
yields nothing for its arguments, while running the evaluator on the
arguments independently yields their two diagnostics. -/
theorem c8_counterexample :
    checkPostponed [("Literal", "typing.Literal")] POSTPONED_ASSIGN_TYPE
      (.subscript (.name "Literal" 1 0)
        (.indexNode (.tuple (.cons (.constant (.str "a") 1 8)
          (.cons (.constant (.str "b") 1 13) .nil)) 1 8)) 1 0) = [] ∧
    checkPostponed [("Literal", "typing.Literal")] POSTPONED_ASSIGN_TYPE
        (.constant (.str "a") 1 8) ++
      checkPostponed [("Literal", "typing.Literal")] POSTPONED_ASSIGN_TYPE
        (.constant (.str "b") 1 13) =
      [⟨1, 8, POSTPONED_ASSIGN_TYPE, .val (.str "a")⟩,
       ⟨1, 13, POSTPONED_ASSIGN_TYPE, .val (.str "b")⟩] := by
  constructor <;> decide

/-- Claim C8 (amended): for `Outer[A, B]` the deprecated, required and
union evaluators yield, after the head's own diagnostics, exactly the
concatenation of independent runs on `A` and on `B` (each diagnostic
carrying its own location); the postponed evaluator satisfies the same law
whenever the head does not pass the Literal guard. -/
theorem c8_tuple_argument_law_amended (tm : List (String × String)) (msg : Nat)
    (v A B : Expr) (lt ct l c : Nat) :
    checkDeprecated tm (.subscript v (.tuple (.cons A (.cons B .nil)) lt ct) l c) =
      deprecatedHead tm (.subscript v (.tuple (.cons A (.cons B .nil)) lt ct) l c) ++
      (checkDeprecated tm A ++ checkDeprecated tm B) ∧
    checkRequired tm (.subscript v (.tuple (.cons A (.cons B .nil)) lt ct) l c) =
      requiredHead tm (.subscript v (.tuple (.cons A (.cons B .nil)) lt ct) l c) ++
      (checkRequired tm A ++ checkRequired tm B) ∧
    checkUnion tm (.subscript v (.tuple (.cons A (.cons B .nil)) lt ct) l c) =
      unionHead tm (.subscript v (.tuple (.cons A (.cons B .nil)) lt ct) l c) ++
      (checkUnion tm A ++ checkUnion tm B) ∧
    (literalExempt tm v = false →
      checkPostponed tm msg (.subscript v (.tuple (.cons A (.cons B .nil)) lt ct) l c) =
        checkPostponed tm msg A ++ checkPostponed tm msg B) := by
  refine ⟨?_, ?_, ?_, ?_⟩
  · have h : checkDeprecated tm (.subscript v (.tuple (.cons A (.cons B .nil)) lt ct) l c) =
      deprecatedHead tm (.subscript v (.tuple (.cons A (.cons B .nil)) lt ct) l c) ++
      (checkDeprecated tm A ++ (checkDeprecated tm B ++ [])) := rfl
    rw [h, List.append_nil]
  · have h : checkRequired tm (.subscript v (.tuple (.cons A (.cons B .nil)) lt ct) l c) =
      requiredHead tm (.subscript v (.tuple (.cons A (.cons B .nil)) lt ct) l c) ++
      (checkRequired tm A ++ (checkRequired tm B ++ [])) := rfl
    rw [h, List.append_nil]
  · have h : checkUnion tm (.subscript v (.tuple (.cons A (.cons B .nil)) lt ct) l c) =
      unionHead tm (.subscript v (.tuple (.cons A (.cons B .nil)) lt ct) l c) ++
      (checkUnion tm A ++ (checkUnion tm B ++ [])) := rfl
    rw [h, List.append_nil]
  · intro hE
    have h : checkPostponed tm msg (.subscript v (.tuple (.cons A (.cons B .nil)) lt ct) l c) =
      if literalExempt tm v then []
      else checkPostponed tm msg A ++ (checkPostponed tm msg B ++ []) := rfl
    rw [h, hE]
    simp

/-- Witness for C8 (amended) at a concrete non-Literal subscript. -/
theorem c8_tuple_argument_law_witness :
    checkPostponed [] 1 (.subscript (.name "X" 1 0)
      (.tuple (.cons (.constant (.str "a") 1 2)
        (.cons (.constant (.str "b") 1 7) .nil)) 1 2) 1 0) =
      checkPostponed [] 1 (.constant (.str "a") 1 2) ++
      checkPostponed [] 1 (.constant (.str "b") 1 7) :=
  (c8_tuple_argument_law_amended [] 1 (.name "X" 1 0) (.constant (.str "a") 1 2)
    (.constant (.str "b") 1 7) 1 2 1 0).2.2.2 (by decide)

/-- Claim C4: the emitted sequence is exactly the postponed bucket (iff
postponed checking is on), then the surviving deprecated-import group
values, the deprecated-use bucket and the required-use bucket (iff
deprecation checking is on), then the surviving union-import group values
and the union-use bucket (iff union checking is on); and a disabled
category contributes no diagnostic of its code ranges at all. -/
theorem c4_aggregation_contract (p d a u : Bool) (tree : Stmts) :
    checkerOutput p d a u tree =
      (if p then (visitStmts a initState tree).postponed else []) ++
      (if d then groupValues (visitStmts a initState tree).deprecated_imports ++
         (visitStmts a initState tree).deprecated ++
         (visitStmts a initState tree).required else []) ++
      (if u then groupValues (visitStmts a initState tree).union_imports ++
         (visitStmts a initState tree).union else []) ∧
    (p = false → ∀ w ∈ checkerOutput p d a u tree, ¬(1 ≤ w.msg ∧ w.msg ≤ 3)) ∧
    (d = false → ∀ w ∈ checkerOutput p d a u tree, ¬(100 ≤ w.msg ∧ w.msg ≤ 399)) ∧
    (u = false → ∀ w ∈ checkerOutput p d a u tree, ¬(400 ≤ w.msg ∧ w.msg ≤ 401)) := by
  refine ⟨rfl, ?_, ?_, ?_⟩
  · rintro rfl w hw
    rcases checkerOutput_mem false d a u tree w hw with ⟨hflag, hc⟩ | ⟨_, hc⟩ | ⟨_, hc⟩
    · simp at hflag
    · omega
    · omega
  · rintro rfl w hw
    rcases checkerOutput_mem p false a u tree w hw with ⟨_, hc⟩ | ⟨hflag, hc⟩ | ⟨_, hc⟩
    · omega
    · simp at hflag
    · omega
  · rintro rfl w hw
    rcases checkerOutput_mem p d a false tree w hw with ⟨_, hc⟩ | ⟨_, hc⟩ | ⟨hflag, hc⟩
    · omega
    · omega
    · simp at hflag

/-- Witness for C4 at a concrete tree with deprecation checking off. -/
theorem c4_aggregation_witness :
    ¬(100 ≤ (Violation.mk 1 3 1 (.val (.str "int"))).msg ∧
      (Violation.mk 1 3 1 (.val (.str "int"))).msg ≤ 399) :=
  (c4_aggregation_contract true false false false
    (.cons (.annAssign (.constant (.str "int") 1 3) 1 0) .nil)).2.2.1 rfl _ (by decide)

/-- Claim C10: whole-module imports never create import-violation group
entries; the groups are populated only by `from typing import` of table
members, so a tree without any `from typing import` ends with both groups
empty, and its emitted diagnostics contain no import-level code (100-199 or
400) — only use-level diagnostics. -/
theorem c10_import_diagnostics_origin :
    (∀ (aliasMode : Bool) (st : VState) (names : List ImpAlias),
       (visitStmt aliasMode st (.wholeImport names)).deprecated_imports =
         st.deprecated_imports ∧
       (visitStmt aliasMode st (.wholeImport names)).union_imports =
         st.union_imports) ∧
    (∀ (p d a u : Bool) (tree : Stmts), stmtsNoTypingFrom tree = true →
       (visitStmts a initState tree).deprecated_imports = [] ∧
       (visitStmts a initState tree).union_imports = [] ∧
       (∀ w ∈ checkerOutput p d a u tree,
          ¬(100 ≤ w.msg ∧ w.msg ≤ 199) ∧ w.msg ≠ 400)) := by
  constructor
  · intro aliasMode st names
    exact ⟨rfl, rfl⟩
  · intro p d a u tree h
    have hnil := noTypingFrom_groups_nil a tree h
    obtain ⟨g1, g2, g3, g4, g5, g6⟩ := visit_tree_codesOK a tree
    refine ⟨hnil.1, hnil.2, ?_⟩
    intro w hw
    simp only [checkerOutput] at hw
    rcases List.mem_append.mp hw with hw | hw
    · rcases List.mem_append.mp hw with hw | hw
      · cases p with
        | false => simp at hw
        | true =>
          have := g1 w hw
          omega
      · cases d with
        | false => simp at hw
        | true =>
          rw [hnil.1] at hw
          simp only [groupValues, List.nil_append] at hw
          rcases List.mem_append.mp hw with hw | hw
          · have := g3 w hw
            omega
          · have := g4 w hw
            omega
    · cases u with
      | false => simp at hw
      | true =>
        rw [hnil.2] at hw
        simp only [groupValues, List.nil_append] at hw
        have := g6 w hw
        omega

/-- Witness for C10 at a concrete tree using only a whole-module import. -/
theorem c10_import_diagnostics_witness :
    (visitStmts false initState (.cons (.wholeImport [⟨"typing", none⟩])
      (.cons (.annAssign (.subscript (.attr (.name "typing" 2 3) "Dict" 2 3)
        (.indexNode (.name "str" 2 15)) 2 3) 2 0) .nil))).deprecated_imports = [] ∧
    (visitStmts false initState (.cons (.wholeImport [⟨"typing", none⟩])
      (.cons (.annAssign (.subscript (.attr (.name "typing" 2 3) "Dict" 2 3)
        (.indexNode (.name "str" 2 15)) 2 3) 2 0) .nil))).union_imports = [] := by
  have h := c10_import_diagnostics_origin.2 false true false false
    (.cons (.wholeImport [⟨"typing", none⟩])
      (.cons (.annAssign (.subscript (.attr (.name "typing" 2 3) "Dict" 2 3)
        (.indexNode (.name "str" 2 15)) 2 3) 2 0) .nil)) (by decide)
  exact ⟨h.1, h.2.1⟩
